import Mathlib

/-!
Verification development for the java2go translator.

This file gives a shallow embedding, in Lean 4, of the parts of the
translator that the specification talks about:

* a model of the emitted Go AST (`GoExpr`, `GoStmt`, `GoField`, `GoDecl`),
  mirroring the constructors of Go's `go/ast` package that the translator
  uses (`Ident`, `StarExpr`, `IndexExpr`, `IndexListExpr`, `SelectorExpr`,
  `CallExpr`, `BasicLit`, `CompositeLit`, `UnaryExpr`, `BinaryExpr`,
  `FuncLit`, `ArrayType`, `StructType`, `InterfaceType`, `FieldList`,
  `FuncDecl`, `GenDecl` with `ValueSpec`/`TypeSpec`, switch statements and
  case clauses);
* the symbol-table data model (`Definition`, `TypeParam`, class scopes);
* the lowering routines named by the specification, translated from the
  Go source: `ShortName`, `zeroValueForType`, `typeParamExprs`,
  `instantiateGenericType`, `applyTypeArguments`, `MergeTypeParams`,
  `GenStructWithTypeParams`, `GenFuncDeclWithTypeParams`,
  `ParseTypeWithTypeParams`, `extractTypeArgsFromString`,
  `javaTypeStringToGoTypeExpr`, the hierarchy walks, the instance-generic
  helper generation, the enum lowering and the class-member symbol parser.

Conventions of the embedding:

* Go strings are Lean `String`s; slicing is performed on the character
  list, which agrees with the Go byte slicing on the ASCII identifiers and
  type strings these routines process.
* A Go `nil` slice and an empty slice are both modelled as `[]` except
  where the code distinguishes them, in which case `Option` is used.
* Doc comments and source positions carried by the Go AST nodes are not
  modelled: they do not participate in any property below.
* Calls into the concrete-syntax-tree adapter (`ParseStmt`, `ParseNode`,
  argument parsing) are passed in as already-lowered values, exactly as
  the translated functions receive their results.
-/

/-- Literal kind of a Go `BasicLit` (`token.STRING`, `token.INT`, ...). -/
inductive LitKind where
  | string
  | int
  deriving DecidableEq, Repr

mutual

/-- Model of `go/ast` expressions as used by the translator. -/
inductive GoExpr where
  | ident (name : String)
  | basicLit (kind : LitKind) (value : String)
  | star (x : GoExpr)
  | indexE (x : GoExpr) (index : GoExpr)
  | indexList (x : GoExpr) (indices : List GoExpr)
  | selector (x : GoExpr) (sel : String)
  | call (fn : GoExpr) (args : List GoExpr)
  | unary (op : String) (x : GoExpr)
  | binary (x : GoExpr) (op : String) (y : GoExpr)
  | arrayType (elt : GoExpr)
  | structType (fields : List GoField)
  | interfaceType (methods : List GoField)
  | compositeLit (ty : Option GoExpr) (elts : List GoExpr)
  | keyValue (key : GoExpr) (value : GoExpr)
  | funcLit (params : Option (List GoField)) (results : Option (List GoField)) (body : List GoStmt)
  | badExpr

/-- Model of a `go/ast` `Field`: a list of names and a type. -/
inductive GoField where
  | mk (names : List String) (ty : GoExpr)

/-- Model of the `go/ast` statements the translator emits. -/
inductive GoStmt where
  | ret (results : List GoExpr)
  | assign (lhs : List GoExpr) (tok : String) (rhs : List GoExpr)
  | exprStmt (x : GoExpr)
  | switchS (tag : Option GoExpr) (clauses : List GoStmt)
  | caseClause (cases : List GoExpr) (body : List GoStmt)
  | block (stmts : List GoStmt)

end

/-- Field names accessor. -/
def GoField.names : GoField → List String
  | .mk ns _ => ns

/-- Field type accessor. -/
def GoField.ty : GoField → GoExpr
  | .mk _ t => t

/-- Model of `go/ast` declaration specs (`ValueSpec`, `TypeSpec`). -/
inductive GoSpec where
  | valueSpec (names : List String) (ty : Option GoExpr) (values : List GoExpr)
  | typeSpec (name : String) (typeParams : Option (List GoField)) (ty : GoExpr)

/-- Model of `go/ast` top-level declarations.  In `funcDecl`, `recv = none`
means a plain function and `recv = some fl` a method with receiver list
`fl`; `body = none` mirrors a `FuncDecl` with nil `Body`. -/
inductive GoDecl where
  | funcDecl (name : String) (recv : Option (List GoField))
      (typeParams : Option (List GoField)) (params : Option (List GoField))
      (results : Option (List GoField)) (body : Option (List GoStmt))
  | genDecl (tok : String) (specs : List GoSpec)
  | badDecl

/-! ## Character-level string helpers

Go's `strings` functions are reimplemented on the character list so that
every definition evaluates by kernel reduction (`String.trim` and friends
in core Lean are defined by well-founded recursion and do not). -/

/-- `strings.TrimSpace`: drop whitespace from both ends. -/
def strTrim (s : String) : String :=
  String.mk (((s.data.dropWhile Char.isWhitespace).reverse.dropWhile Char.isWhitespace).reverse)

/-- `strings.HasPrefix` on character lists. -/
def strStartsWith (s p : String) : Bool :=
  p.data.isPrefixOf s.data

/-- `strings.HasSuffix` on character lists. -/
def strEndsWith (s p : String) : Bool :=
  p.data.reverse.isPrefixOf s.data.reverse

/-! ## Naming helpers -/

/-- Lowercase the first character of a string, keeping the rest.
Used to model `symbol.Lowercase`. -/
def lowerFirst (s : String) : String :=
  match s.data with
  | [] => s
  | c :: cs => String.mk (c.toLower :: cs)

/-- Uppercase the first character of a string, keeping the rest. -/
def upperFirst (s : String) : String :=
  match s.data with
  | [] => s
  | c :: cs => String.mk (c.toUpper :: cs)

/-- Modelled from the spec: `symbol.HandleExportStatus` is not among the
provided sources (only its callers are).  The spec's export policy:
"a member declared `public` gets an exported (capitalized) name;
otherwise a non-exported (leading-lowercase) name."  The keyword-collision
suffix exception is irrelevant to the identifiers considered here. -/
def HandleExportStatus (public : Bool) (name : String) : String :=
  if public then upperFirst name else lowerFirst name

/-- Translation of `ShortName` (generate.go): the first and the last
character of the class name, both lowercased. -/
def ShortName (longName : String) : String :=
  match longName.data with
  | [] => ""
  | c :: cs =>
    match cs.getLast? with
    | none => String.mk [c.toLower] ++ String.mk [c.toLower]
    | some d => String.mk [c.toLower] ++ String.mk [d.toLower]

/-! ## Symbol-table data model -/

/-- Translation of `symbol.TypeParam`: a declared type parameter with its
bound strings (`JavaType.Original`). -/
structure TypeParam where
  name : String
  bounds : List String
  deriving DecidableEq, Repr

/-- Translation of `symbol.TypeParamNames`. -/
def TypeParamNames (params : List TypeParam) : List String :=
  params.map (·.name)

/-- Translation of `symbol.MergeTypeParams`: outer parameters not shadowed
by a same-named inner parameter, followed by the inner parameters.  The Go
code materialises the shadowing set as a map used only for membership
tests, modelled here by a list membership test. -/
def MergeTypeParams (outer inner : List TypeParam) : List TypeParam :=
  match outer, inner with
  | [], _ => inner
  | _, [] => outer
  | _, _ =>
    (outer.filter (fun p => ¬ inner.any (fun q => q.name = p.name))) ++ inner

/-- Parameter or local-variable entry of a method `Definition`.  In the Go
source these are `*symbol.Definition` values of which only the four name
and type fields are ever populated. -/
structure ParamDef where
  name : String
  originalName : String
  ty : String
  originalType : String
  deriving DecidableEq, Repr

/-- Translation of `symbol.Definition` restricted to the fields the
verified routines read.  `parameters` and `children` hold the
parameter/local entries (see `ParamDef`). -/
structure Definition where
  originalName : String
  name : String
  originalType : String
  ty : String
  typeParameters : List TypeParam
  isStatic : Bool
  requiresHelper : Bool
  helperName : String
  isConstructor : Bool
  parameters : List ParamDef
  children : List ParamDef
  deriving DecidableEq, Repr

/-- Translation of `Definition.TypeParameterNames`. -/
def Definition.typeParameterNames (d : Definition) : List String :=
  TypeParamNames d.typeParameters

/-- Translation of `Definition.ParameterByName`: first parameter with the
given original name. -/
def Definition.parameterByName (d : Definition) (n : String) : Option ParamDef :=
  d.parameters.find? (fun p => p.originalName = n)

/-- Translation of `Definition.FindVariable`: parameters first, then the
immediate children. -/
def Definition.findVariable (d : Definition) (n : String) : Option ParamDef :=
  match d.parameters.find? (fun p => p.originalName = n) with
  | some p => some p
  | none => d.children.find? (fun c => c.originalName = n)

/-! ## Small expression builders (declaration.go) -/

/-- Translation of `typeParamExprs`: type-parameter names as identifier
expressions (`nil` for an empty list is modelled by `[]`). -/
def typeParamExprs (params : List String) : List GoExpr :=
  params.map GoExpr.ident

/-- Translation of `instantiateGenericType`. -/
def instantiateGenericType (name : String) (args : List GoExpr) : GoExpr :=
  match args with
  | [] => .ident name
  | [a] => .indexE (.ident name) a
  | _ => .indexList (.ident name) args

/-- Translation of `applyTypeArguments`. -/
def applyTypeArguments (fn : GoExpr) (args : List GoExpr) : GoExpr :=
  match args with
  | [] => fn
  | [a] => .indexE fn a
  | _ => .indexList fn args

/-- Translation of `zeroValueForType`. -/
def zeroValueForType (expr : GoExpr) : Option GoExpr :=
  match expr with
  | .ident n =>
    if n = "" ∨ n = "void" then none
    else if n = "string" then some (.basicLit .string "\"\"")
    else if n = "bool" then some (.ident "false")
    else if n ∈ ["int", "int32", "int64", "uint", "uint8", "uint16",
        "uint32", "uint64", "float32", "float64", "byte", "rune"] then
      some (.basicLit .int "0")
    else some (.ident "nil")
  | .star _ => some (.ident "nil")
  | .arrayType _ => some (.ident "nil")
  | .interfaceType _ => some (.ident "nil")
  | e => some (.compositeLit (some e) [])

/-! ## Type lowering (astutil.ParseTypeWithTypeParams) -/

/-- Model of the Java type CST nodes consumed by the type lowerer, after
the node-kind vocabulary of the external parser: the five `integral_type`
keywords, the two `floating_point_type` keywords, `void_type`,
`boolean_type`, `generic_type` (base name plus the parsed children of its
`type_arguments` node, empty for the diamond), `array_type`,
`type_identifier` and `scoped_type_identifier`. -/
inductive JavaTypeNode where
  | intT
  | shortT
  | longT
  | charT
  | byteT
  | floatT
  | doubleT
  | voidT
  | boolT
  | genericType (baseName : String) (args : List JavaTypeNode)
  | arrType (elt : JavaTypeNode)
  | typeIdentifier (name : String)
  | scopedTypeIdentifier (content : String)
  deriving Repr

mutual

/-- Translation of `astutil.ParseTypeWithTypeParams` (astutil package):
lowers a Java type CST node to a Go type expression, given the in-scope
type-parameter names. -/
def ParseTypeWithTypeParams (node : JavaTypeNode) (typeParams : List String) : GoExpr :=
  match node with
  | .intT => .ident "int32"
  | .shortT => .ident "int16"
  | .longT => .ident "int64"
  | .charT => .ident "rune"
  | .byteT => .ident "byte"
  | .floatT => .ident "float32"
  | .doubleT => .ident "float64"
  | .voidT => .ident ""
  | .boolT => .ident "bool"
  | .genericType baseName args =>
    match parseTypeArgList args typeParams with
    | [] => .star (.ident baseName)
    | [a] => .star (.indexE (.ident baseName) a)
    | typeArgs => .star (.indexList (.ident baseName) typeArgs)
  | .arrType elt => .arrayType (ParseTypeWithTypeParams elt typeParams)
  | .typeIdentifier typeName =>
    if typeName = "String" then .ident "string"
    else if typeParams.contains typeName then .ident typeName
    else .star (.ident typeName)
  | .scopedTypeIdentifier content => .star (.ident content)

/-- The per-argument loop of the `generic_type` case of
`ParseTypeWithTypeParams`: lowers each child of the `type_arguments`
node, in order. -/
def parseTypeArgList (nodes : List JavaTypeNode) (typeParams : List String) : List GoExpr :=
  match nodes with
  | [] => []
  | n :: rest => ParseTypeWithTypeParams n typeParams :: parseTypeArgList rest typeParams

end

/-! ## Java type strings (extractTypeArgsFromString and friends) -/

/-- Push `current`, trimmed, onto `result` if non-empty (the shared
append step of `extractTypeArgsFromString`). -/
def pushTrimmedArg (result : List String) (current : List Char) : List String :=
  let t := strTrim (String.mk current)
  if t = "" then result else result ++ [t]

/-- The character loop of `extractTypeArgsFromString`: split at top-level
commas while tracking angle-bracket depth.  `none` models the Go early
`return nil` on unbalanced brackets. -/
def splitArgsLoop : List Char → Nat → List Char → List String → Option (List String)
  | [], depth, current, result =>
    if depth ≠ 0 then none else some (pushTrimmedArg result current)
  | c :: rest, depth, current, result =>
    if c = '<' then splitArgsLoop rest (depth + 1) (current ++ [c]) result
    else if c = '>' then
      if depth = 0 then none
      else splitArgsLoop rest (depth - 1) (current ++ [c]) result
    else if c = ',' then
      if depth = 0 then splitArgsLoop rest 0 [] (pushTrimmedArg result current)
      else splitArgsLoop rest depth (current ++ [c]) result
    else splitArgsLoop rest depth (current ++ [c]) result

/-- Index of the first occurrence of `c`, as `strings.Index` (ASCII). -/
def firstIdxOf (cs : List Char) (c : Char) : Option Nat :=
  cs.findIdx? (· = c)

/-- Index of the last occurrence of `c`, as `strings.LastIndex` (ASCII). -/
def lastIdxOf (cs : List Char) (c : Char) : Option Nat :=
  (cs.reverse.findIdx? (· = c)).map (fun i => cs.length - 1 - i)

/-- Translation of `extractTypeArgsFromString`: extracts the top-level
type arguments of a string such as `Map<String, List<Integer>>`.  The Go
`nil` results (no angle brackets, or unbalanced brackets) are modelled by
`[]`. -/
def extractTypeArgsFromString (typeStr : String) : List String :=
  let cs := typeStr.data
  match firstIdxOf cs '<', lastIdxOf cs '>' with
  | some start, some stop =>
    if stop ≤ start then []
    else
      let argsStr := (cs.drop (start + 1)).take (stop - (start + 1))
      match splitArgsLoop argsStr 0 [] [] with
      | none => []
      | some r => r
  | _, _ => []

/-- Translation of `parseJavaTypeString`: base name before the first `<`
(trimmed), plus the extracted type arguments. -/
def parseJavaTypeString (typeStr0 : String) : String × List String :=
  let typeStr := strTrim typeStr0
  if typeStr = "" then ("", [])
  else
    let base :=
      match firstIdxOf typeStr.data '<' with
      | some idx => strTrim (String.mk (typeStr.data.take idx))
      | none => typeStr
    (base, extractTypeArgsFromString typeStr)

/-- Translation of `stripJavaQualifier`: drop a dotted package qualifier,
keeping the leaf type name. -/
def stripJavaQualifier (typeName0 : String) : String :=
  let typeName := strTrim typeName0
  if typeName = "" then ""
  else
    match lastIdxOf typeName.data '.' with
    | some idx => String.mk (typeName.data.drop (idx + 1))
    | none => typeName

/-- The `for strings.HasSuffix(typeStr, "[]")` loop of
`javaTypeStringToGoTypeExpr`, with fuel bounding the (length-decreasing)
iteration count. -/
def stripArrayDims : Nat → String → Nat × String
  | 0, s => (0, s)
  | fuel + 1, s =>
    if strEndsWith s "[]" then
      let s1 := strTrim (String.mk (s.data.take (s.data.length - 2)))
      let r := stripArrayDims fuel s1
      (r.1 + 1, r.2)
    else (0, s)

/-- The primitive-name table local to `javaTypeStringToGoTypeExpr`. -/
def primitiveGoType (name : String) : Option GoExpr :=
  if name = "String" then some (.ident "string")
  else if name = "boolean" then some (.ident "bool")
  else if name = "int" then some (.ident "int32")
  else if name = "short" then some (.ident "int16")
  else if name = "long" then some (.ident "int64")
  else if name = "char" then some (.ident "rune")
  else if name = "byte" then some (.ident "byte")
  else if name = "float" then some (.ident "float32")
  else if name = "double" then some (.ident "float64")
  else none

/-- Translation of `javaTypeStringToGoTypeExpr`, with fuel standing in for
the Go recursion (every recursive call is on a strictly shorter string, so
`length + 1` fuel reproduces the Go function exactly).  Wildcard and
`? extends` results return early, before the array-dimension wrapping,
exactly as in the source. -/
def javaTypeStringToGoTypeExprFuel : Nat → String → List String → GoExpr
  | 0, _, _ => .ident "any"
  | fuel + 1, typeStr0, typeParams =>
    let typeStr1 := strTrim typeStr0
    if typeStr1 = "" then .ident "any"
    else
      let dims := stripArrayDims typeStr1.length typeStr1
      let arrayDims := dims.1
      let typeStr := dims.2
      if strStartsWith typeStr "?" then
        let rest := strTrim (String.mk (typeStr.data.drop 1))
        if rest = "" then .ident "any"
        else if strStartsWith rest "extends" then
          let bound := strTrim (String.mk (rest.data.drop 7))
          if bound = "" then .ident "any"
          else javaTypeStringToGoTypeExprFuel fuel bound typeParams
        else .ident "any"
      else
        let parsed := parseJavaTypeString typeStr
        let base := stripJavaQualifier parsed.1
        let typeArgs := parsed.2
        let expr :=
          match primitiveGoType base with
          | some prim => prim
          | none =>
            if typeParams.contains base then .ident base
            else
              if typeArgs = [] then .star (.ident base)
              else
                .star (applyTypeArguments (.ident base)
                  (typeArgs.map (fun a => javaTypeStringToGoTypeExprFuel fuel a typeParams)))
        Nat.rec expr (fun _ acc => .arrayType acc) arrayDims

/-- Top-level wrapper for `javaTypeStringToGoTypeExpr` with sufficient
fuel. -/
def javaTypeStringToGoTypeExpr (typeStr : String) (typeParams : List String) : GoExpr :=
  javaTypeStringToGoTypeExprFuel (typeStr.length + 1) typeStr typeParams

/-! ## Generic declaration builders (generate.go) -/

/-- Translation of `constraintExpr`: no bounds means `any`, a single bound
is lowered directly, several bounds become an interface holding every
lowered bound. -/
def constraintExpr (bounds : List String) (typeParams : List String) : GoExpr :=
  match bounds with
  | [] => .ident "any"
  | [b] => javaTypeStringToGoTypeExpr b typeParams
  | _ =>
    .interfaceType (bounds.map (fun b => GoField.mk [] (javaTypeStringToGoTypeExpr b typeParams)))

/-- Translation of `makeTypeParamFields`: one field per type parameter,
whose constraint is resolved against the names of this same list. -/
def makeTypeParamFields (typeParams : List TypeParam) : List GoField :=
  typeParams.map (fun tp => GoField.mk [tp.name] (constraintExpr tp.bounds (TypeParamNames typeParams)))

/-- Translation of `GenStructWithTypeParams`. -/
def GenStructWithTypeParams (structName : String) (structFields : List GoField)
    (typeParams : List TypeParam) : GoDecl :=
  .genDecl "type"
    [.typeSpec structName
      (if typeParams = [] then none else some (makeTypeParamFields typeParams))
      (.structType structFields)]

/-- Translation of `GenFuncDeclWithTypeParams`. -/
def GenFuncDeclWithTypeParams (name : String) (typeParams : List TypeParam)
    (params : Option (List GoField)) (results : Option (List GoField))
    (body : List GoStmt) : GoDecl :=
  .funcDecl name none
    (if typeParams = [] then none else some (makeTypeParamFields typeParams))
    params results (some body)

/-! ## Class scopes and hierarchy walks -/

/-- The per-scope data read by the hierarchy resolvers.  A Go program run
holds finitely many `*symbol.ClassScope` objects; the registry indexes
them by `Fin n`, and pointer equality becomes index equality.  `fields`
holds the class's field definitions (of which the resolvers read the
original name and original type). -/
structure ClassScopeData where
  name : String
  originalName : String
  superclass : String
  methods : List Definition
  fields : List ParamDef
  typeParameters : List TypeParam

/-- Translation of `resolveSuperclassScope`: empty (after trimming)
superclass means no parent, otherwise the base name of the superclass
type string is resolved through `resolveName`, which stands for
`resolveClassScopeByQualifiedName` over the current file, package and
imports — i.e. over the state of the registered package scopes. -/
def resolveSuperclassScope {n : Nat} (reg : Fin n → ClassScopeData)
    (resolveName : String → Option (Fin n)) (sc : Fin n) : Option (Fin n) :=
  if strTrim (reg sc).superclass = "" then none
  else resolveName (parseJavaTypeString (reg sc).superclass).1

/-- The shared loop of `findInstanceMethodInHierarchy`,
`findStaticMethodInHierarchy` and `findFieldInHierarchy`: walk the
superclass chain, keeping a `seen` set (modelled as the list of scopes in
visit order), returning `nil` as soon as a scope repeats, and otherwise
querying each scope with `pick`.  The outer `Option` is a fuel cutoff:
`none` means the iteration count exceeded the fuel, `some (vis, r)` means
the Go loop returned `r` after visiting `vis`. -/
def hierarchyWalk {n : Nat} {α : Type} (reg : Fin n → ClassScopeData)
    (resolveName : String → Option (Fin n)) (pick : ClassScopeData → Option α) :
    Nat → Option (Fin n) → List (Fin n) → Option (List (Fin n) × Option (α × Fin n))
  | 0, _, _ => none
  | _ + 1, none, seen => some (seen, none)
  | fuel + 1, some sc, seen =>
    if sc ∈ seen then some (seen, none)
    else
      match pick (reg sc) with
      | some d => some (seen ++ [sc], some (d, sc))
      | none =>
        hierarchyWalk reg resolveName pick fuel
          (resolveSuperclassScope reg resolveName sc) (seen ++ [sc])

/-- The method scan of `findInstanceMethodInHierarchy`: first non-static
method with the given original name and parameter count. -/
def pickInstanceMethod (methodName : String) (argCount : Nat) (sc : ClassScopeData) :
    Option Definition :=
  sc.methods.find? (fun d =>
    (!d.isStatic) && d.originalName == methodName && d.parameters.length == argCount)

/-- The method scan of `findStaticMethodInHierarchy`. -/
def pickStaticMethod (methodName : String) (argCount : Nat) (sc : ClassScopeData) :
    Option Definition :=
  sc.methods.find? (fun d =>
    d.isStatic && d.originalName == methodName && d.parameters.length == argCount)

/-- The field scan of `findFieldInHierarchy` (`FindFieldByName`). -/
def pickField (fieldName : String) (sc : ClassScopeData) : Option ParamDef :=
  sc.fields.find? (fun f => f.originalName == fieldName)

/-- Translation of `findInstanceMethodInHierarchy`, with visit trace.
`n + 1` fuel is enough for the walk to finish (proved below). -/
def findInstanceMethodInHierarchy {n : Nat} (reg : Fin n → ClassScopeData)
    (resolveName : String → Option (Fin n)) (start : Fin n)
    (methodName : String) (argCount : Nat) :
    Option (List (Fin n) × Option (Definition × Fin n)) :=
  hierarchyWalk reg resolveName (pickInstanceMethod methodName argCount)
    (n + 1) (some start) []

/-- Translation of `findStaticMethodInHierarchy`, with visit trace. -/
def findStaticMethodInHierarchy {n : Nat} (reg : Fin n → ClassScopeData)
    (resolveName : String → Option (Fin n)) (start : Fin n)
    (methodName : String) (argCount : Nat) :
    Option (List (Fin n) × Option (Definition × Fin n)) :=
  hierarchyWalk reg resolveName (pickStaticMethod methodName argCount)
    (n + 1) (some start) []

/-- Translation of `findFieldInHierarchy`, with visit trace. -/
def findFieldInHierarchy {n : Nat} (reg : Fin n → ClassScopeData)
    (resolveName : String → Option (Fin n)) (start : Fin n) (fieldName : String) :
    Option (List (Fin n) × Option (ParamDef × Fin n)) :=
  hierarchyWalk reg resolveName (pickField fieldName) (n + 1) (some start) []

/-- Result projection of `findInstanceMethodInHierarchy` (the Go function
returns only the resolution, not the trace). -/
def findInstanceMethodInHierarchyDef {n : Nat} (reg : Fin n → ClassScopeData)
    (resolveName : String → Option (Fin n)) (start : Fin n)
    (methodName : String) (argCount : Nat) : Option (Definition × Fin n) :=
  match findInstanceMethodInHierarchy reg resolveName start methodName argCount with
  | some (_, r) => r
  | none => none

/-- Result projection of `findFieldInHierarchy`. -/
def findFieldInHierarchyDef {n : Nat} (reg : Fin n → ClassScopeData)
    (resolveName : String → Option (Fin n)) (start : Fin n) (fieldName : String) :
    Option ParamDef :=
  match findFieldInHierarchy reg resolveName start fieldName with
  | some (_, some (f, _)) => some f
  | _ => none

/-- Key lemma for the walks: with `seen` duplicate-free and enough fuel,
the loop finishes (never hits the fuel cutoff) and its visit trace is
duplicate-free. -/
theorem hierarchyWalk_total {n : Nat} {α : Type} (reg : Fin n → ClassScopeData)
    (resolveName : String → Option (Fin n)) (pick : ClassScopeData → Option α) :
    ∀ (fuel : Nat) (cur : Option (Fin n)) (seen : List (Fin n)),
      seen.Nodup → n + 1 ≤ fuel + seen.length →
      ∃ vis r, hierarchyWalk reg resolveName pick fuel cur seen = some (vis, r) ∧ vis.Nodup := by
  intro fuel
  induction fuel with
  | zero =>
    intro cur seen hnd hle
    exfalso
    have hcard : seen.length ≤ n := by
      have := hnd.length_le_card
      simpa using this
    omega
  | succ f ih =>
    intro cur seen hnd hle
    match cur with
    | none => exact ⟨seen, none, rfl, hnd⟩
    | some sc =>
      by_cases hmem : sc ∈ seen
      · refine ⟨seen, none, ?_, hnd⟩
        simp [hierarchyWalk, hmem]
      · have hnd2 : (seen ++ [sc]).Nodup := by
          simp [List.nodup_append, hnd, hmem]
        match hp : pick (reg sc) with
        | some d =>
          refine ⟨seen ++ [sc], some (d, sc), ?_, hnd2⟩
          simp [hierarchyWalk, hmem, hp]
        | none =>
          obtain ⟨vis, r, heq, hvis⟩ :=
            ih (resolveSuperclassScope reg resolveName sc) (seen ++ [sc]) hnd2
              (by simp; omega)
          refine ⟨vis, r, ?_, hvis⟩
          simp [hierarchyWalk, hmem, hp]
          exact heq

/-- A two-scope registry whose superclass declarations form a cycle:
class `A extends B` and class `B extends A`. -/
def cycleRegistry : Fin 2 → ClassScopeData :=
  fun i =>
    if i = (0 : Fin 2) then ClassScopeData.mk "A" "A" "B" [] [] []
    else ClassScopeData.mk "B" "B" "A" [] [] []

/-- Name resolution for `cycleRegistry`. -/
def cycleResolve : String → Option (Fin 2) :=
  fun s => if s = "A" then some 0 else if s = "B" then some 1 else none

/-- C10.  Termination of hierarchy walks: for every class-scope registry,
every superclass-resolution state and every start scope, each of
`findInstanceMethodInHierarchy`, `findStaticMethodInHierarchy` and
`findFieldInHierarchy` finishes within the `n + 1`-iteration fuel bound
(the loop never hits the cutoff), its visit trace contains every class
scope at most once, a walk that reaches an already-seen scope returns no
result, and on the concrete cyclic registry (`A extends B`,
`B extends A`) the instance walk visits each of the two scopes exactly
once and returns no result. -/
theorem hierarchy_walks_terminate {n : Nat} (reg : Fin n → ClassScopeData)
    (resolveName : String → Option (Fin n)) (start : Fin n)
    (methodName fieldName : String) (argCount : Nat) :
    (∃ vis r, findInstanceMethodInHierarchy reg resolveName start methodName argCount =
        some (vis, r) ∧ vis.Nodup) ∧
    (∃ vis r, findStaticMethodInHierarchy reg resolveName start methodName argCount =
        some (vis, r) ∧ vis.Nodup) ∧
    (∃ vis r, findFieldInHierarchy reg resolveName start fieldName =
        some (vis, r) ∧ vis.Nodup) ∧
    (∀ (α : Type) (pick : ClassScopeData → Option α) (fuel : Nat) (sc : Fin n)
        (seen : List (Fin n)), sc ∈ seen →
        hierarchyWalk reg resolveName pick (fuel + 1) (some sc) seen = some (seen, none)) ∧
    findInstanceMethodInHierarchy cycleRegistry cycleResolve 0 "m" 0 =
      some ([0, 1], none) := by
  refine ⟨?_, ?_, ?_, ?_, ?_⟩
  · exact hierarchyWalk_total reg resolveName _ (n + 1) (some start) [] (by simp) (by simp)
  · exact hierarchyWalk_total reg resolveName _ (n + 1) (some start) [] (by simp) (by simp)
  · exact hierarchyWalk_total reg resolveName _ (n + 1) (some start) [] (by simp) (by simp)
  · intro α pick fuel sc seen hmem
    simp [hierarchyWalk, hmem]
  · decide

/-! ## Declaration lowering: instance-generic helpers and enum methods -/

/-- The class-level inputs `ParseDecl` reads from `ctx` when lowering a
member: the resolved class name (`ctx.className`), the class's type
parameters and whether the class is an enum. -/
structure LoweringClass where
  className : String
  typeParameters : List TypeParam
  isEnum : Bool

/-- Translation of `genInstanceGenericHelperDecls`: the helper struct, its
constructor and the helper method for an instance generic method. -/
def genInstanceGenericHelperDecls (classTypeParams : List TypeParam) (className : String)
    (d : Definition) (params : Option (List GoField)) (results : Option (List GoField))
    (body : List GoStmt) (receiverBaseType : GoExpr) : List GoDecl :=
  let combinedTypeParams := MergeTypeParams classTypeParams d.typeParameters
  let combinedTypeParamNames := TypeParamNames combinedTypeParams
  let helperName := d.helperName
  let helperFields := [GoField.mk ["recv"] (.star receiverBaseType)]
  let helperStruct := GenStructWithTypeParams helperName helperFields combinedTypeParams
  let helperTypeArgs := typeParamExprs combinedTypeParamNames
  let helperTypeExpr := instantiateGenericType helperName helperTypeArgs
  let receiverShortName := ShortName className
  let constructorName := "New" ++ helperName
  let constructorParams := [GoField.mk [receiverShortName] (.star receiverBaseType)]
  let returnType := [GoField.mk [] (.star helperTypeExpr)]
  let constructorBody : List GoStmt :=
    [.ret [.unary "&" (.compositeLit (some helperTypeExpr)
      [.keyValue (.ident "recv") (.ident receiverShortName)])]]
  let ctor := GenFuncDeclWithTypeParams constructorName combinedTypeParams
    (some constructorParams) (some returnType) constructorBody
  let helperRecvName := receiverShortName ++ "Helper"
  let helperReceiver := [GoField.mk [helperRecvName] (.star helperTypeExpr)]
  let assignOriginalReceiver : GoStmt :=
    .assign [.ident receiverShortName] ":=" [.selector (.ident helperRecvName) "recv"]
  let modifiedBody := assignOriginalReceiver :: body
  let methodDecl := GoDecl.funcDecl d.name (some helperReceiver) none params results
    (some modifiedBody)
  [helperStruct, ctor, methodDecl]

/-- Translation of `buildEnumMethodImplementation`: a free function holding
one implementation body of an enum method, with the receiver prepended to
the parsed parameter list.  The parsed parameters and body are passed in,
as the Go function receives them from `ParseNode`/`ParseStmt`. -/
def buildEnumMethodImplementation (funcName : String) (className : String) (d : Definition)
    (parsedParams : List GoField) (parsedBody : List GoStmt)
    (receiverBaseType : GoExpr) : GoDecl :=
  let params := GoField.mk [ShortName className] (.star receiverBaseType) :: parsedParams
  let results := if d.ty ≠ "" then some [GoField.mk [] (.ident d.ty)] else none
  .funcDecl funcName none none (some params) results (some parsedBody)

/-- The call-argument list of the dispatch method built by
`buildEnumMethodWrapper`: the receiver short-name followed by every
parameter name. -/
def wrapperCallArgs (className : String) (params : Option (List GoField)) : List GoExpr :=
  GoExpr.ident (ShortName className) ::
    (match params with
     | none => []
     | some fl => fl.foldl (fun acc f => acc ++ f.names.map GoExpr.ident) [])

/-- The default branch of the dispatch method: call the enum-level
default implementation when one exists, otherwise panic (and return the
zero value of the return type when there is one). -/
def wrapperDefaultBody (defaultImpl : String) (args : List GoExpr)
    (results : Option (List GoField)) : List GoStmt :=
  if defaultImpl ≠ "" then [.ret [.call (.ident defaultImpl) args]]
  else
    [GoStmt.exprStmt (.call (.ident "panic")
        [.basicLit .string "\"abstract enum method not implemented\""])] ++
      (match results with
       | some (f :: _) =>
         [GoStmt.ret (match zeroValueForType f.ty with | some z => [z] | none => [])]
       | _ => [])

/-- Translation of `buildEnumMethodWrapper`: the dispatch method that
switches on `recv.Name`.  In the Go source the per-constant clauses come
from `for constName, implName := range overrides` over a Go map, whose
iteration order the language leaves unspecified and randomises between
runs; `overridesIter` is that iteration order, so a run of the translator
corresponds to some permutation of the override entries. -/
def buildEnumMethodWrapper (className : String) (d : Definition)
    (overridesIter : List (String × String)) (defaultImpl : String)
    (params : Option (List GoField)) (results : Option (List GoField))
    (receiver : Option (List GoField)) : GoDecl :=
  let recvName := ShortName className
  let args : List GoExpr := wrapperCallArgs className params
  let clauses := overridesIter.map (fun p =>
    GoStmt.caseClause [.basicLit .string ("\"" ++ p.1 ++ "\"")]
      [.ret [.call (.ident p.2) args]])
  let allClauses := clauses ++ [GoStmt.caseClause [] (wrapperDefaultBody defaultImpl args results)]
  let wrapperBody : List GoStmt :=
    [.switchS (some (.selector (.ident recvName) "Name")) allClauses]
  .funcDecl d.name receiver none params results (some wrapperBody)

/-- One enum constant as the enum-method branch of `ParseDecl` consumes
it: its name, and, when the constant's class body contains a method
declaration matching the current definition
(`enumConstantMethodDeclarations` + `methodNodeMatchesDefinition`), the
parsed parameters and body of that override. -/
structure EnumConstModel where
  name : String
  override : Option (List GoField × List GoStmt)

/-- The override table the enum-method branch of `ParseDecl` builds, in
enum-constant declaration order: `(constant name, _<Enum>_<K>_<Method>)`
for each constant with a matching override body. -/
def enumOverridesList (className : String) (d : Definition)
    (constants : List EnumConstModel) : List (String × String) :=
  (constants.filter (fun c => c.override.isSome)).map
    (fun c => (c.name, "_" ++ className ++ "_" ++ c.name ++ "_" ++ d.name))

/-- Translation of the `method_declaration` / `abstract_method_declaration`
branch of `ParseDecl` (declaration lowering).  Inputs already produced by
the surrounding code and the CST adapter are passed in: the `static`
modifier flag, the matched method `Definition` (`ctx.localScope`), the
parsed parameter list, the parsed body (`none` when the method node has
no `body` child — an abstract method), the enum-constant models and, for
the dispatch wrapper, the map iteration order `overridesIter` (see
`buildEnumMethodWrapper`).  Annotation comments are not modelled. -/
def parseDeclMethod (cls : LoweringClass) (static : Bool) (methodDef : Definition)
    (params : List GoField) (bodyOpt : Option (List GoStmt))
    (constants : List EnumConstModel)
    (overridesIter : List (String × String)) : List GoDecl :=
  let classTPNames := TypeParamNames cls.typeParameters
  let receiverBaseType := instantiateGenericType cls.className (typeParamExprs classTPNames)
  let receiver := [GoField.mk [ShortName cls.className] (.star receiverBaseType)]
  if cls.isEnum ∧ static = false then
    let results := if methodDef.ty ≠ "" then some [GoField.mk [] (.ident methodDef.ty)] else none
    let defaultImpl :=
      match bodyOpt with
      | some _ => "_" ++ cls.className ++ "_" ++ methodDef.name ++ "_default"
      | none => ""
    let defaultDecls :=
      match bodyOpt with
      | some b => [buildEnumMethodImplementation defaultImpl cls.className methodDef params b
          receiverBaseType]
      | none => []
    let overrideDecls := constants.foldl (fun acc c =>
      match c.override with
      | none => acc
      | some pb =>
        acc ++ [buildEnumMethodImplementation
          ("_" ++ cls.className ++ "_" ++ c.name ++ "_" ++ methodDef.name)
          cls.className methodDef pb.1 pb.2 receiverBaseType]) []
    let wrapper := buildEnumMethodWrapper cls.className methodDef overridesIter defaultImpl
      (some params) results (some receiver)
    (defaultDecls ++ overrideDecls) ++ [wrapper]
  else
    match bodyOpt with
    | none => []
    | some body =>
      let params2 := if methodDef.originalName = "main" then none else some params
      let body2 :=
        if methodDef.originalName = "main" then
          GoStmt.assign [.ident "args"] ":=" [.selector (.ident "os") "Args"] :: body
        else body
      let results := some [GoField.mk [] (.ident methodDef.ty)]
      if methodDef.requiresHelper then
        if static then [GoDecl.badDecl]
        else genInstanceGenericHelperDecls cls.typeParameters cls.className methodDef params2
          results body2 receiverBaseType
      else
        let typeParams :=
          if static ∧ methodDef.typeParameters ≠ [] then
            some (makeTypeParamFields methodDef.typeParameters)
          else none
        [GoDecl.funcDecl methodDef.name (if static then none else some receiver) typeParams
          params2 results (some body2)]

/-! ## Properties of the type lowering (claim C6) -/

/-- The lowered type-argument list is the pointwise lowering of the
`type_arguments` children. -/
theorem parseTypeArgList_eq_map (nodes : List JavaTypeNode) (typeParams : List String) :
    parseTypeArgList nodes typeParams = nodes.map (fun a => ParseTypeWithTypeParams a typeParams) := by
  induction nodes with
  | nil => rfl
  | cons n rest ih => simp [parseTypeArgList, ih]

/-- C6 (amended).  The type-lowering mapping table of
`astutil.ParseTypeWithTypeParams`: `int`/`short`/`long` lower to
`int32`/`int16`/`int64`, `char` to the 32-bit code-point type `rune`,
`byte` to `byte`, `float`/`double` to `float32`/`float64`, `boolean` to
`bool`, `String` to the native `string`, an array type to a slice of the
lowered element, a parameterized type `C<A1,…,An>` to a pointer to `C`
instantiated with the lowered arguments in order, a name that is an
in-scope type parameter to the bare identifier (never wrapped in a
pointer), and any other plain reference name to a pointer — with the one
exception forced by the counterexample: the name `String` always lowers
to `string`, even when `String` is an in-scope type parameter, because
the `String` special case is checked before the type-parameter test. -/
theorem type_lowering_table (typeParams : List String) (elt : JavaTypeNode)
    (baseName typeName : String) (args : List JavaTypeNode) :
    (ParseTypeWithTypeParams .intT typeParams = .ident "int32") ∧
    (ParseTypeWithTypeParams .shortT typeParams = .ident "int16") ∧
    (ParseTypeWithTypeParams .longT typeParams = .ident "int64") ∧
    (ParseTypeWithTypeParams .charT typeParams = .ident "rune") ∧
    (ParseTypeWithTypeParams .byteT typeParams = .ident "byte") ∧
    (ParseTypeWithTypeParams .floatT typeParams = .ident "float32") ∧
    (ParseTypeWithTypeParams .doubleT typeParams = .ident "float64") ∧
    (ParseTypeWithTypeParams .boolT typeParams = .ident "bool") ∧
    (ParseTypeWithTypeParams (.typeIdentifier "String") typeParams = .ident "string") ∧
    (ParseTypeWithTypeParams (.arrType elt) typeParams =
      .arrayType (ParseTypeWithTypeParams elt typeParams)) ∧
    (args ≠ [] →
      ParseTypeWithTypeParams (.genericType baseName args) typeParams =
        .star (applyTypeArguments (.ident baseName)
          (args.map (fun a => ParseTypeWithTypeParams a typeParams)))) ∧
    (typeName ≠ "String" → typeParams.contains typeName = true →
      ParseTypeWithTypeParams (.typeIdentifier typeName) typeParams = .ident typeName) ∧
    (typeName ≠ "String" → typeParams.contains typeName = false →
      ParseTypeWithTypeParams (.typeIdentifier typeName) typeParams = .star (.ident typeName)) := by
  refine ⟨rfl, rfl, rfl, rfl, rfl, rfl, rfl, rfl, rfl, rfl, ?_, ?_, ?_⟩
  · intro hne
    match args with
    | [] => exact absurd rfl hne
    | [a] =>
      simp [ParseTypeWithTypeParams, parseTypeArgList, applyTypeArguments]
    | a :: b :: rest =>
      simp [ParseTypeWithTypeParams, parseTypeArgList_eq_map, applyTypeArguments]
  · intro hs hc
    have hm : typeName ∈ typeParams := by simpa using hc
    simp [ParseTypeWithTypeParams, hs, hm]
  · intro hs hc
    have hm : typeName ∉ typeParams := by simpa using hc
    simp [ParseTypeWithTypeParams, hs, hm]

/-- C6 counterexample.  A type parameter named `String` (legal Java) does
not lower to the bare type-parameter identifier: the `String` special
case fires first and produces the native `string` type. -/
theorem type_param_named_string_counterexample :
    ParseTypeWithTypeParams (.typeIdentifier "String") ["String"] = .ident "string" ∧
    GoExpr.ident "string" ≠ GoExpr.ident "String" := by
  refine ⟨rfl, ?_⟩
  intro h
  injection h with h2
  exact absurd h2 (by decide)

/-- C6 witness: the table evaluated at concrete inputs, discharging the
hypotheses of `type_lowering_table`. -/
theorem type_lowering_table_witness :
    (ParseTypeWithTypeParams (.typeIdentifier "T") ["T"] = .ident "T") ∧
    (ParseTypeWithTypeParams (.typeIdentifier "X") ["T"] = .star (.ident "X")) ∧
    (ParseTypeWithTypeParams (.genericType "List" [.typeIdentifier "T"]) ["T"] =
      .star (applyTypeArguments (.ident "List")
        ([JavaTypeNode.typeIdentifier "T"].map (fun a => ParseTypeWithTypeParams a ["T"])))) := by
  have h := type_lowering_table ["T"] .voidT "List" "T" [.typeIdentifier "T"]
  have h2 := type_lowering_table ["T"] .voidT "List" "X" [.typeIdentifier "T"]
  refine ⟨?_, ?_, ?_⟩
  · exact h.2.2.2.2.2.2.2.2.2.2.2.1 (by decide) (by decide)
  · exact h2.2.2.2.2.2.2.2.2.2.2.2.2 (by decide) (by decide)
  · exact h.2.2.2.2.2.2.2.2.2.2.1 (by simp)

/-! ## Symbol construction of class members (symbol/parsing.go, claim C7) -/

/-- Translation of the `method_declaration` / `constructor_declaration`
branch of `parseClassMember`.  Inputs drawn from the CST: the node kind
(`isMethodDecl` — `true` for `method_declaration`), the `public` and
`static` modifier flags, the declared name, the method-level type
parameters, the parsed parameter entries, the return-type strings of a
method, and the parsed body scopes (`Children`).  `classOriginalName` and
`classExportedName` are `scope.Class.OriginalName` and
`scope.Class.Name`. -/
def parseClassMemberMethod (classOriginalName classExportedName : String)
    (isMethodDecl public isStatic : Bool) (name : String)
    (methodTypeParams : List TypeParam) (params : List ParamDef)
    (origRetType loweredRetType : String) (children : List ParamDef) : Definition :=
  let base : Definition :=
    { originalName := name
      name := HandleExportStatus public name
      originalType := ""
      ty := ""
      typeParameters := methodTypeParams
      isStatic := isStatic
      requiresHelper := false
      helperName := ""
      isConstructor := false
      parameters := params
      children := children }
  let withType :=
    if isMethodDecl then
      { base with ty := loweredRetType, originalType := origRetType }
    else
      { base with
          name := HandleExportStatus public "New" ++ name
          isConstructor := true
          ty := classOriginalName }
  if isMethodDecl ∧ methodTypeParams ≠ [] ∧ isStatic = false then
    { withType with
        requiresHelper := true
        helperName := classExportedName ++ withType.name ++ "Helper" }
  else withType

/-- Translation of the `field_declaration` branch of `parseClassMember`:
only the two names and two types are populated; every flag keeps its Go
zero value. -/
def parseClassMemberField (public : Bool) (fieldName loweredType origType : String) : Definition :=
  { originalName := fieldName
    name := HandleExportStatus public fieldName
    originalType := origType
    ty := loweredType
    typeParameters := []
    isStatic := false
    requiresHelper := false
    helperName := ""
    isConstructor := false
    parameters := []
    children := [] }

/-- C7.  Helper flag during symbol construction: a member definition
produced by `parseClassMember` has `RequiresHelper = true` exactly when it
comes from a `method_declaration` that is non-static and declares at
least one method-level type parameter (constructors and fields never do),
and in that case its `HelperName` is the class's exported name, followed
by the method's exported name, followed by `"Helper"`. -/
theorem requires_helper_iff (classOriginalName classExportedName : String)
    (isMethodDecl public isStatic : Bool) (name : String)
    (methodTypeParams : List TypeParam) (params : List ParamDef)
    (origRetType loweredRetType : String) (children : List ParamDef)
    (fieldPublic : Bool) (fieldName loweredType origType : String) :
    ((parseClassMemberMethod classOriginalName classExportedName isMethodDecl public isStatic
        name methodTypeParams params origRetType loweredRetType children).requiresHelper = true ↔
      isMethodDecl = true ∧ isStatic = false ∧ methodTypeParams ≠ []) ∧
    ((parseClassMemberMethod classOriginalName classExportedName isMethodDecl public isStatic
        name methodTypeParams params origRetType loweredRetType children).requiresHelper = true →
      (parseClassMemberMethod classOriginalName classExportedName isMethodDecl public isStatic
          name methodTypeParams params origRetType loweredRetType children).helperName =
        classExportedName ++ HandleExportStatus public name ++ "Helper") ∧
    (parseClassMemberField fieldPublic fieldName loweredType origType).requiresHelper = false := by
  by_cases hcond : isMethodDecl = true ∧ methodTypeParams ≠ [] ∧ isStatic = false
  · refine ⟨?_, ?_, rfl⟩
    · simp only [parseClassMemberMethod, if_pos hcond]
      constructor
      · intro _
        exact ⟨hcond.1, hcond.2.2, hcond.2.1⟩
      · intro _
        trivial
    · intro _
      simp only [parseClassMemberMethod, if_pos hcond]
      have hm : isMethodDecl = true := hcond.1
      simp [hm]
  · refine ⟨?_, ?_, rfl⟩
    · simp only [parseClassMemberMethod, if_neg hcond]
      constructor
      · intro hfalse
        exfalso
        by_cases hm : isMethodDecl = true <;> simp [parseClassMemberMethod, hm] at hfalse
      · intro hx
        exact absurd ⟨hx.1, hx.2.2, hx.2.1⟩ hcond
    · intro hfalse
      exfalso
      by_cases hm : isMethodDecl = true <;>
        simp only [parseClassMemberMethod, if_neg hcond] at hfalse <;>
        simp [hm] at hfalse

/-- C7 witness: the helper flag and helper name computed for a concrete
public non-static generic method `map` of class `Box`, discharging the
hypotheses of `requires_helper_iff` at that instance. -/
theorem requires_helper_iff_witness :
    (parseClassMemberMethod "Box" "Box" true true false "map" [TypeParam.mk "R" []] []
        "R" "R" []).requiresHelper = true ∧
    (parseClassMemberMethod "Box" "Box" true true false "map" [TypeParam.mk "R" []] []
        "R" "R" []).helperName = "Box" ++ HandleExportStatus true "map" ++ "Helper" := by
  have h := requires_helper_iff "Box" "Box" true true false "map" [TypeParam.mk "R" []] []
    "R" "R" [] true "f" "t" "o"
  have hflag : (parseClassMemberMethod "Box" "Box" true true false "map" [TypeParam.mk "R" []] []
      "R" "R" []).requiresHelper = true := by decide
  exact ⟨hflag, h.2.1 hflag⟩

/-! ## Abstract methods in non-enum classes (claim C2) -/

/-- The `Shape` class of the spec's abstract-method example. -/
def shapeClass : LoweringClass := LoweringClass.mk "Shape" [] false

/-- The symbol-table definition of `Shape`'s `public abstract double
area()`, as the symbol phase produces it. -/
def shapeAreaDef : Definition :=
  parseClassMemberMethod "Shape" "Shape" true true false "area" [] [] "double" "float64" []

/-- C2 evaluation.  In a non-enum class, `ParseDecl` returns no
declarations at all for a method node without a `body` child — hence no
`panic`-stub is emitted for an abstract method; in particular lowering
`Shape`'s abstract method `area` produces the empty declaration list
rather than an `Area` method panicking with
`"abstract method area not implemented"`. -/
theorem abstract_method_emits_no_stub :
    (∀ (className : String) (classTPs : List TypeParam) (static : Bool) (d : Definition)
      (params : List GoField) (constants : List EnumConstModel)
      (iter : List (String × String)),
      parseDeclMethod (LoweringClass.mk className classTPs false) static d params none
        constants iter = []) ∧
    parseDeclMethod shapeClass false shapeAreaDef [] none [] [] = [] := by
  constructor
  · intro className classTPs static d params constants iter
    simp [parseDeclMethod]
  · rfl

/-! ## Instance-generic helper emission (claim C3) -/

/-- Does the declaration declare a struct type of the given name? -/
def isStructDeclNamed (nm : String) : GoDecl → Bool
  | .genDecl _ [.typeSpec n _ (.structType _)] => n == nm
  | _ => false

/-- Is this a plain (receiverless) function of the given name? -/
def isFreeFuncNamed (nm : String) : GoDecl → Bool
  | .funcDecl n none _ _ _ _ => n == nm
  | _ => false

/-- Is this a method (a function with a receiver) of the given name? -/
def isMethodNamed (nm : String) : GoDecl → Bool
  | .funcDecl n (some _) _ _ _ _ => n == nm
  | _ => false

/-- Base identifier of a (possibly pointered / instantiated) type
expression. -/
def exprBaseName : GoExpr → Option String
  | .ident nm => some nm
  | .star x => exprBaseName x
  | .indexE x _ => exprBaseName x
  | .indexList x _ => exprBaseName x
  | _ => none

/-- Base identifier of the receiver type of a method declaration. -/
def methodReceiverBaseName : GoDecl → Option String
  | .funcDecl _ (some (f :: _)) _ _ _ _ => exprBaseName f.ty
  | _ => none

/-- `instantiateGenericType` keeps the base name. -/
theorem exprBaseName_instantiate (nm : String) (args : List GoExpr) :
    exprBaseName (instantiateGenericType nm args) = some nm := by
  match args with
  | [] => rfl
  | [a] => rfl
  | a :: b :: rest => rfl

/-- Type-parameter names declared by a struct declaration. -/
def declTypeParamNames : GoDecl → List String
  | .genDecl _ [.typeSpec _ (some tps) _] => tps.foldl (fun acc f => acc ++ f.names) []
  | _ => []

/-- Type-parameter names of the first emitted declaration. -/
def headDeclTypeParamNames : List GoDecl → List String
  | d :: _ => declTypeParamNames d
  | [] => []

/-- C3 (amended).  Helper emission: lowering a method definition with
`RequiresHelper = true` in a non-enum class emits exactly the helper
struct named `HelperName` — whose single field is `recv`, a pointer to
the class instantiated with the class type parameters, and whose
type-parameter list is `MergeTypeParams` of the class's and the method's
type parameters (class parameters shadowed by a same-named method
parameter are omitted; the rest keep the class-then-method order) — the
constructor `New<HelperName>` taking the receiver and returning a pointer
to the helper, and one method with the method's name declared on the
helper whose body first binds the class's receiver short-name to the
helper's `recv` field; no emitted declaration is a method on the class
itself. -/
theorem helper_emission (className : String) (classTPs : List TypeParam) (d : Definition)
    (params : List GoField) (body : List GoStmt) (constants : List EnumConstModel)
    (iter : List (String × String))
    (hreq : d.requiresHelper = true) (hmain : d.originalName ≠ "main")
    (hname : d.helperName ≠ className) :
    let recvBase := instantiateGenericType className (typeParamExprs (TypeParamNames classTPs))
    let merged := MergeTypeParams classTPs d.typeParameters
    let helperType := instantiateGenericType d.helperName (typeParamExprs (TypeParamNames merged))
    let out := parseDeclMethod (LoweringClass.mk className classTPs false) false d params
      (some body) constants iter
    out = [GenStructWithTypeParams d.helperName [GoField.mk ["recv"] (.star recvBase)] merged,
        GenFuncDeclWithTypeParams ("New" ++ d.helperName) merged
          (some [GoField.mk [ShortName className] (.star recvBase)])
          (some [GoField.mk [] (.star helperType)])
          [.ret [.unary "&" (.compositeLit (some helperType)
            [.keyValue (.ident "recv") (.ident (ShortName className))])]],
        .funcDecl d.name
          (some [GoField.mk [ShortName className ++ "Helper"] (.star helperType)]) none
          (some params) (some [GoField.mk [] (.ident d.ty)])
          (some (GoStmt.assign [.ident (ShortName className)] ":="
              [.selector (.ident (ShortName className ++ "Helper")) "recv"] :: body))] ∧
    out.countP (isStructDeclNamed d.helperName) = 1 ∧
    out.countP (isFreeFuncNamed ("New" ++ d.helperName)) = 1 ∧
    out.countP (isMethodNamed d.name) = 1 ∧
    (∀ decl ∈ out, ¬ methodReceiverBaseName decl = some className) := by
  intro recvBase merged helperType out
  have heq : out = [GenStructWithTypeParams d.helperName
        [GoField.mk ["recv"] (.star recvBase)] merged,
      GenFuncDeclWithTypeParams ("New" ++ d.helperName) merged
        (some [GoField.mk [ShortName className] (.star recvBase)])
        (some [GoField.mk [] (.star helperType)])
        [.ret [.unary "&" (.compositeLit (some helperType)
          [.keyValue (.ident "recv") (.ident (ShortName className))])]],
      .funcDecl d.name
        (some [GoField.mk [ShortName className ++ "Helper"] (.star helperType)]) none
        (some params) (some [GoField.mk [] (.ident d.ty)])
        (some (GoStmt.assign [.ident (ShortName className)] ":="
            [.selector (.ident (ShortName className ++ "Helper")) "recv"] :: body))] := by
    simp only [out, parseDeclMethod, genInstanceGenericHelperDecls, hreq, hmain]
    simp [GenStructWithTypeParams, GenFuncDeclWithTypeParams, merged, helperType, recvBase]
  refine ⟨heq, ?_, ?_, ?_, ?_⟩
  · rw [heq]
    simp [List.countP, List.countP.go, isStructDeclNamed, GenStructWithTypeParams,
      GenFuncDeclWithTypeParams]
  · rw [heq]
    simp [List.countP, List.countP.go, isFreeFuncNamed, GenStructWithTypeParams,
      GenFuncDeclWithTypeParams]
  · rw [heq]
    simp [List.countP, List.countP.go, isMethodNamed, GenStructWithTypeParams,
      GenFuncDeclWithTypeParams]
  · rw [heq]
    intro decl hmem
    simp only [List.mem_cons, List.mem_singleton] at hmem
    rcases hmem with h1 | h2 | h3 | hfalse
    · subst h1
      simp [methodReceiverBaseName, GenStructWithTypeParams]
    · subst h2
      simp [methodReceiverBaseName, GenFuncDeclWithTypeParams]
    · subst h3
      have hbn : exprBaseName helperType = some d.helperName :=
        exprBaseName_instantiate d.helperName (typeParamExprs (TypeParamNames merged))
      simp [methodReceiverBaseName, GoField.ty, exprBaseName, hbn, hname]
    · exact absurd hfalse (by simp)

/-- The `Box<T>` class with an instance generic method `map` that
declares a method type parameter also named `T` (legal Java: the method
parameter shadows the class parameter). -/
def boxClass : LoweringClass := LoweringClass.mk "Box" [TypeParam.mk "T" []] false

/-- Symbol definition of `Box`'s shadowing method `<T> void map(...)`,
flagged by the symbol phase. -/
def boxMapShadowDef : Definition :=
  parseClassMemberMethod "Box" "Box" true true false "map" [TypeParam.mk "T" []] []
    "void" "" []

/-- C3 counterexample.  With a method type parameter shadowing a class
type parameter of the same name, the emitted helper struct's type
parameter list is `[T]`, not the class's parameters followed by the
method's parameters (`[T, T]`): the claim's concatenation disagrees with
the emitted list. -/
theorem helper_type_params_shadowing_counterexample :
    headDeclTypeParamNames (parseDeclMethod boxClass false boxMapShadowDef [] (some []) [] []) =
      ["T"] ∧
    TypeParamNames boxClass.typeParameters ++ TypeParamNames boxMapShadowDef.typeParameters =
      ["T", "T"] ∧
    (["T"] : List String) ≠ ["T", "T"] := by
  refine ⟨?_, by decide, by decide⟩
  decide

/-- Symbol definition of a non-shadowing instance generic method `map` of
the (non-generic) class `Stack`. -/
def stackMapDef : Definition :=
  parseClassMemberMethod "Stack" "Stack" true true false "map" [TypeParam.mk "R" []] []
    "R" "R" []

/-- C3 witness: `helper_emission` applied to `Stack.map`, discharging
its hypotheses at that concrete instance. -/
theorem helper_emission_witness :
    stackMapDef.requiresHelper = true ∧ stackMapDef.originalName ≠ "main" ∧
    stackMapDef.helperName ≠ "Stack" ∧
    (parseDeclMethod (LoweringClass.mk "Stack" [] false) false stackMapDef [] (some []) [] []).countP
      (isStructDeclNamed stackMapDef.helperName) = 1 ∧
    (parseDeclMethod (LoweringClass.mk "Stack" [] false) false stackMapDef [] (some []) [] []).countP
      (isMethodNamed stackMapDef.name) = 1 := by
  have h := helper_emission "Stack" [] stackMapDef [] [] [] [] (by decide) (by decide) (by decide)
  exact ⟨by decide, by decide, by decide, h.2.1, h.2.2.2.1⟩

/-! ## Enum method dispatch (claims C1, C9) -/

/-- Names of the emitted function declarations, in order. -/
def declNames (l : List GoDecl) : List String :=
  l.foldl (fun acc d =>
    match d with
    | .funcDecl n _ _ _ _ _ => acc ++ [n]
    | _ => acc) []

/-- The string literals of the case clauses of a dispatch method's switch
body, in emission order. -/
def caseLiterals (d : GoDecl) : List String :=
  match d with
  | .funcDecl _ _ _ _ _ (some [.switchS _ clauses]) =>
    clauses.foldl (fun acc c =>
      match c with
      | .caseClause [.basicLit .string v] _ => acc ++ [v]
      | _ => acc) []
  | _ => []

/-- `caseLiterals` of the last emitted declaration (the dispatch wrapper
comes last in the enum-method branch). -/
def lastDeclCaseLiterals (l : List GoDecl) : List String :=
  match l.getLast? with
  | some d => caseLiterals d
  | none => []

/-- The enum `Op` of the spec's per-constant override example. -/
def opClass : LoweringClass := LoweringClass.mk "Op" [] true

/-- Symbol definition of `Op`'s `public abstract int apply(...)`. -/
def opApplyDef : Definition :=
  parseClassMemberMethod "Op" "Op" true true false "apply" [] [] "int" "int32" []

/-- The two constants `PLUS` and `MINUS`, each with an overriding body
for `apply`. -/
def opConstants : List EnumConstModel :=
  [EnumConstModel.mk "PLUS" (some ([], [])), EnumConstModel.mk "MINUS" (some ([], []))]

/-- One possible Go map iteration order over the two overrides. -/
def opIterA : List (String × String) :=
  [("PLUS", "_Op_PLUS_Apply"), ("MINUS", "_Op_MINUS_Apply")]

/-- The other possible Go map iteration order over the two overrides. -/
def opIterB : List (String × String) :=
  [("MINUS", "_Op_MINUS_Apply"), ("PLUS", "_Op_PLUS_Apply")]

/-- C1 evaluation.  The dispatch wrapper's case-clause order follows the
iteration order of the Go map `overrides` (`for … := range overrides` in
`buildEnumMethodWrapper`), which Go randomises per run: both `opIterA`
and `opIterB` are permutations of the same override table built from the
same (byte-identical) input, yet the two runs of the enum-method lowering
emit different declaration lists — the case clauses appear once as
`"PLUS", "MINUS"` and once as `"MINUS", "PLUS"`.  Map iteration order therefore
reaches the output, contradicting determinism. -/
theorem enum_dispatch_leaks_map_iteration_order :
    opIterA.Perm (enumOverridesList "Op" opApplyDef opConstants) ∧
    opIterB.Perm (enumOverridesList "Op" opApplyDef opConstants) ∧
    lastDeclCaseLiterals (parseDeclMethod opClass false opApplyDef [] none opConstants opIterA) =
      ["\"PLUS\"", "\"MINUS\""] ∧
    lastDeclCaseLiterals (parseDeclMethod opClass false opApplyDef [] none opConstants opIterB) =
      ["\"MINUS\"", "\"PLUS\""] ∧
    parseDeclMethod opClass false opApplyDef [] none opConstants opIterA ≠
      parseDeclMethod opClass false opApplyDef [] none opConstants opIterB := by
  have h3 : lastDeclCaseLiterals
      (parseDeclMethod opClass false opApplyDef [] none opConstants opIterA) =
      ["\"PLUS\"", "\"MINUS\""] := by decide
  have h4 : lastDeclCaseLiterals
      (parseDeclMethod opClass false opApplyDef [] none opConstants opIterB) =
      ["\"MINUS\"", "\"PLUS\""] := by decide
  refine ⟨by decide, by decide, h3, h4, ?_⟩
  intro heq
  have hc := congrArg lastDeclCaseLiterals heq
  rw [h3, h4] at hc
  exact absurd hc (by decide)

/-- Does the declaration carry a method receiver? -/
def hasReceiver : GoDecl → Bool
  | .funcDecl _ (some _) _ _ _ _ => true
  | _ => false

/-- The override accumulation loop of the enum-method branch, rephrased:
folding the per-constant appends equals a `filterMap` over the constants
with overriding bodies. -/
theorem foldl_override_eq_filterMap (f : EnumConstModel → List GoField × List GoStmt → GoDecl) :
    ∀ (constants : List EnumConstModel) (acc : List GoDecl),
      constants.foldl (fun acc c =>
        match c.override with
        | none => acc
        | some pb => acc ++ [f c pb]) acc =
      acc ++ constants.filterMap (fun c => c.override.map (f c)) := by
  intro constants
  induction constants with
  | nil => intro acc; simp
  | cons c rest ih =>
    intro acc
    match hc : c.override with
    | none => simp [List.foldl_cons, hc, ih]
    | some pb => simp [List.foldl_cons, hc, ih]

/-- C9 (amended).  Per-constant enum method overrides: for an enum
instance method, the lowering emits one free function per overriding
constant `K`, named `_<Enum>_<K>_<N>` where `N` is the method's resolved
(exported) name — for the spec's `enum Op` with `public abstract int
apply`, `_Op_PLUS_Apply` and `_Op_MINUS_Apply` — a free default function
`_<Enum>_<N>_default` when the enum itself provides a body, and a single
struct method (the only emitted declaration with a receiver) named `N`,
whose body switches on `recv.Name` with one case clause per override
entry calling the matching per-constant function, and whose default
branch calls the default implementation or, for an abstract enum method,
panics with `"abstract enum method not implemented"`. -/
theorem enum_method_dispatch (className : String) (classTPs : List TypeParam) (d : Definition)
    (params : List GoField) (bodyOpt : Option (List GoStmt)) (constants : List EnumConstModel)
    (iter : List (String × String)) (recvBase : GoExpr) (receiver : List GoField)
    (results : Option (List GoField)) (defaultImpl : String) (out : List GoDecl)
    (hiter : iter.Perm (enumOverridesList className d constants))
    (hrb : recvBase = instantiateGenericType className (typeParamExprs (TypeParamNames classTPs)))
    (hrecv : receiver = [GoField.mk [ShortName className] (.star recvBase)])
    (hres : results = if d.ty ≠ "" then some [GoField.mk [] (.ident d.ty)] else none)
    (hdi : defaultImpl =
      bodyOpt.elim "" (fun _ => "_" ++ className ++ "_" ++ d.name ++ "_default"))
    (hout0 : out = parseDeclMethod (LoweringClass.mk className classTPs true) false d params
      bodyOpt constants iter) :
    (∀ c ∈ constants, ∀ pb, c.override = some pb →
      buildEnumMethodImplementation ("_" ++ className ++ "_" ++ c.name ++ "_" ++ d.name)
          className d pb.1 pb.2 recvBase ∈ out ∧
        (c.name, "_" ++ className ++ "_" ++ c.name ++ "_" ++ d.name) ∈ iter) ∧
    (∀ b, bodyOpt = some b →
      buildEnumMethodImplementation ("_" ++ className ++ "_" ++ d.name ++ "_default")
        className d params b recvBase ∈ out) ∧
    out.filter hasReceiver =
      [buildEnumMethodWrapper className d iter defaultImpl (some params) results
        (some receiver)] ∧
    buildEnumMethodWrapper className d iter defaultImpl (some params) results (some receiver) =
      .funcDecl d.name (some receiver) none (some params) results
        (some [.switchS (some (.selector (.ident (ShortName className)) "Name"))
          ((iter.map (fun p =>
            GoStmt.caseClause [.basicLit .string ("\"" ++ p.1 ++ "\"")]
              [.ret [.call (.ident p.2) (wrapperCallArgs className (some params))]])) ++
           [GoStmt.caseClause []
             (wrapperDefaultBody defaultImpl (wrapperCallArgs className (some params))
               results)])]) := by
  subst hout0
  have hout : parseDeclMethod (LoweringClass.mk className classTPs true) false d params
      bodyOpt constants iter =
      (bodyOpt.elim [] (fun b => [buildEnumMethodImplementation
        ("_" ++ className ++ "_" ++ d.name ++ "_default") className d params b recvBase])) ++
      constants.filterMap (fun c => c.override.map (fun pb =>
        buildEnumMethodImplementation ("_" ++ className ++ "_" ++ c.name ++ "_" ++ d.name)
          className d pb.1 pb.2 recvBase)) ++
      [buildEnumMethodWrapper className d iter defaultImpl (some params) results
        (some receiver)] := by
    subst hrb
    subst hrecv
    subst hres
    subst hdi
    cases bodyOpt with
    | some b =>
      simp only [parseDeclMethod]
      rw [foldl_override_eq_filterMap]
      simp
    | none =>
      simp only [parseDeclMethod]
      rw [foldl_override_eq_filterMap]
      simp
  refine ⟨?_, ?_, ?_, rfl⟩
  · intro c hc pb hpb
    constructor
    · rw [hout]
      have hm : buildEnumMethodImplementation
          ("_" ++ className ++ "_" ++ c.name ++ "_" ++ d.name) className d pb.1 pb.2 recvBase ∈
          constants.filterMap (fun c => c.override.map (fun pb =>
            buildEnumMethodImplementation
              ("_" ++ className ++ "_" ++ c.name ++ "_" ++ d.name)
              className d pb.1 pb.2 recvBase)) := by
        apply List.mem_filterMap.mpr
        exact ⟨c, hc, by rw [hpb]; rfl⟩
      simp only [List.append_assoc, List.mem_append]
      exact Or.inr (Or.inl hm)
    · apply hiter.mem_iff.mpr
      apply List.mem_map.mpr
      refine ⟨c, ?_, rfl⟩
      apply List.mem_filter.mpr
      exact ⟨hc, by simp [hpb]⟩
  · intro b hb
    rw [hout, hb]
    simp
  · rw [hout]
    rw [List.filter_append, List.filter_append]
    have h1 : (bodyOpt.elim ([] : List GoDecl) (fun b => [buildEnumMethodImplementation
        ("_" ++ className ++ "_" ++ d.name ++ "_default") className d params b
        recvBase])).filter hasReceiver = [] := by
      cases bodyOpt with
      | some b => simp [buildEnumMethodImplementation, hasReceiver]
      | none => rfl
    have h2 : (constants.filterMap (fun c => c.override.map (fun pb =>
        buildEnumMethodImplementation ("_" ++ className ++ "_" ++ c.name ++ "_" ++ d.name)
          className d pb.1 pb.2 recvBase))).filter hasReceiver = [] := by
      apply List.filter_eq_nil_iff.mpr
      intro decl hmem
      rcases List.mem_filterMap.mp hmem with ⟨c, _, hcm⟩
      rcases Option.map_eq_some'.mp hcm with ⟨pb, _, himp⟩
      rw [← himp]
      simp [buildEnumMethodImplementation, hasReceiver]
    rw [h1, h2]
    simp [buildEnumMethodWrapper, hasReceiver]

/-- C9 counterexample.  For the spec's `enum Op` with `public abstract
int apply` overridden by `PLUS` and `MINUS`, the emitted free functions
are named `_Op_PLUS_Apply` and `_Op_MINUS_Apply` — built from the
method's resolved exported name `Apply` — and no declaration named
`_Op_PLUS_apply` (the claim's spelling) exists in the output. -/
theorem enum_override_names_counterexample :
    declNames (parseDeclMethod opClass false opApplyDef [] none opConstants opIterA) =
      ["_Op_PLUS_Apply", "_Op_MINUS_Apply", "Apply"] ∧
    "_Op_PLUS_apply" ∉
      declNames (parseDeclMethod opClass false opApplyDef [] none opConstants opIterA) := by
  exact ⟨by decide, by decide⟩

/-- C9 witness: `enum_method_dispatch` applied to the `Op` example,
discharging its hypotheses at that concrete instance. -/
theorem enum_method_dispatch_witness :
    opIterA.Perm (enumOverridesList "Op" opApplyDef opConstants) ∧
    buildEnumMethodImplementation "_Op_PLUS_Apply" "Op" opApplyDef [] []
        (instantiateGenericType "Op" (typeParamExprs (TypeParamNames ([] : List TypeParam)))) ∈
      parseDeclMethod opClass false opApplyDef [] none opConstants opIterA := by
  have h := enum_method_dispatch "Op" [] opApplyDef [] none opConstants opIterA
    (instantiateGenericType "Op" (typeParamExprs (TypeParamNames ([] : List TypeParam))))
    [GoField.mk [ShortName "Op"]
      (.star (instantiateGenericType "Op" (typeParamExprs (TypeParamNames ([] : List TypeParam)))))]
    (if opApplyDef.ty ≠ "" then some [GoField.mk [] (.ident opApplyDef.ty)] else none)
    ""
    (parseDeclMethod opClass false opApplyDef [] none opConstants opIterA)
    (by decide) rfl rfl rfl rfl rfl
  refine ⟨by decide, ?_⟩
  have hc : EnumConstModel.mk "PLUS" (some ([], [])) ∈ opConstants := by
    simp only [opConstants]
    exact List.mem_cons_self _ _
  exact (h.1 (EnumConstModel.mk "PLUS" (some ([], []))) hc ([], []) rfl).1

/-! ## Enum declaration lowering (ParseDecls enum branch, claim C8) -/

/-- A field of the enum's class scope as the enum branch reads it:
resolved name, resolved type string, static flag. -/
structure EnumFieldModel where
  name : String
  ty : String
  isStatic : Bool

/-- An enum constant as the enum branch consumes it: its name and its
already-parsed constructor arguments (`parseEnumConstantArguments`). -/
structure EnumConstantData where
  name : String
  args : List GoExpr

/-- Translation of `findEnumConstructor`: first constructor whose
parameter count matches the argument count. -/
def findEnumConstructor (methods : List Definition) (argumentCount : Nat) : Option Definition :=
  methods.find? (fun d => d.isConstructor && d.parameters.length == argumentCount)

/-- Translation of `buildEnumConstantInitializer`: an immediately-invoked
function literal that builds the instance (through the matching
constructor when one exists), then assigns `Name` and `Ordinal`. -/
def buildEnumConstantInitializer (className : String) (methods : List Definition)
    (ec : EnumConstantData) (ordinal : GoExpr) : GoExpr :=
  let args := ec.args
  let baseInit : GoExpr :=
    match findEnumConstructor methods args.length with
    | some ctor => .call (.ident ctor.name) args
    | none => .unary "&" (.compositeLit (some (.ident className)) [])
  .call
    (.funcLit none (some [GoField.mk [] (.star (.ident className))])
      [.assign [.ident "inst"] ":=" [baseInit],
       .assign [.selector (.ident "inst") "Name"] "="
         [.basicLit .string ("\"" ++ ec.name ++ "\"")],
       .assign [.selector (.ident "inst") "Ordinal"] "=" [ordinal],
       .ret [.ident "inst"]])
    []

/-- The `<Enum>Values()` accessor emitted by the enum branch. -/
def enumValuesFn (className : String) : GoDecl :=
  .funcDecl (className ++ "Values") none none (some [])
    (some [GoField.mk [] (.arrayType (.star (.ident className)))])
    (some [.ret [.ident ("_" ++ lowerFirst className ++ "Values")]])

/-- The `<Enum>ValueOf(name string)` function emitted by the enum branch:
one case per constant returning the constant's package-level variable,
plus a default that panics. -/
def enumValueOfFn (className : String) (enumConstants : List EnumConstantData) : GoDecl :=
  .funcDecl (className ++ "ValueOf") none none
    (some [GoField.mk ["name"] (.ident "string")])
    (some [GoField.mk [] (.star (.ident className))])
    (some [.switchS (some (.ident "name"))
      ((enumConstants.map (fun ec =>
        GoStmt.caseClause [.basicLit .string ("\"" ++ ec.name ++ "\"")]
          [.ret [.ident ec.name]])) ++
       [GoStmt.caseClause []
         [.exprStmt (.call (.ident "panic")
            [.binary (.basicLit .string "\"No enum constant \"") "+" (.ident "name")]),
          .ret [.ident "nil"]]])])

/-- Translation of the `enum_declaration` branch of `ParseDecls`: struct
with `Name`/`Ordinal`, interface embeds and instance fields; static
fields as package variables; then, when the enum has constants, the
ordinal constants, the singleton variables, the values slice, `Values`,
`ValueOf` and the `Name`/`Ordinal`/`CompareTo` accessor methods; finally
the lowered body declarations.  `interfaceEmbeds` and `bodyDecls` are the
already-lowered results of the interface-node walk and of
`ParseDecls(body)`; `symbol.Lowercase` (missing from the sources, used
only for the private variable names) is modelled from the spec as
leading-lowercase. -/
def parseDeclsEnum (className : String) (typeParams : List TypeParam)
    (interfaceEmbeds : List GoExpr) (fields : List EnumFieldModel)
    (enumConstants : List EnumConstantData) (methods : List Definition)
    (bodyDecls : List GoDecl) : List GoDecl :=
  let typeParamNames := TypeParamNames typeParams
  let structFields :=
    [GoField.mk ["Name"] (.ident "string"), GoField.mk ["Ordinal"] (.ident "int")] ++
    interfaceEmbeds.map (fun e => GoField.mk [] e) ++
    (fields.filter (fun f => !f.isStatic)).map (fun f => GoField.mk [f.name] (.ident f.ty))
  let globalSpecs := (fields.filter (fun f => f.isStatic)).map
    (fun f => GoSpec.valueSpec [f.name] (some (.ident f.ty)) [])
  let decls0 : List GoDecl := if globalSpecs.isEmpty then [] else [.genDecl "var" globalSpecs]
  let structDecl := GenStructWithTypeParams className structFields typeParams
  let metaDecls : List GoDecl :=
    if enumConstants.isEmpty then []
    else
      let ordinalPrefixStr := "_" ++ lowerFirst className ++ "_ordinal_"
      let ordinalSpecs := enumConstants.enum.map (fun p =>
        GoSpec.valueSpec [ordinalPrefixStr ++ p.2.name] none
          (if p.1 = 0 then [.ident "iota"] else []))
      let valuesVarName := "_" ++ lowerFirst className ++ "Values"
      let valueSpecs := enumConstants.map (fun ec =>
        GoSpec.valueSpec [ec.name] none
          [buildEnumConstantInitializer className methods ec
            (.ident (ordinalPrefixStr ++ ec.name))])
      let valuesSlice := enumConstants.map (fun ec => GoExpr.ident ec.name)
      let receiverBase := instantiateGenericType className (typeParamExprs typeParamNames)
      let receiver := [GoField.mk [ShortName className] (.star receiverBase)]
      [.genDecl "const" ordinalSpecs,
       .genDecl "var" valueSpecs,
       .genDecl "var" [GoSpec.valueSpec [valuesVarName] none
         [.compositeLit (some (.arrayType (.star (.ident className)))) valuesSlice]],
       enumValuesFn className,
       enumValueOfFn className enumConstants,
       .funcDecl (HandleExportStatus true "name") (some receiver) none none
         (some [GoField.mk [] (.ident "string")])
         (some [.ret [.selector (.ident (ShortName className)) "Name"]]),
       .funcDecl (HandleExportStatus true "ordinal") (some receiver) none none
         (some [GoField.mk [] (.ident "int")])
         (some [.ret [.selector (.ident (ShortName className)) "Ordinal"]]),
       .funcDecl (HandleExportStatus true "compareTo") (some receiver) none
         (some [GoField.mk ["other"] (.star receiverBase)])
         (some [GoField.mk [] (.ident "int")])
         (some [.ret [.binary (.selector (.ident (ShortName className)) "Ordinal") "-"
           (.selector (.ident "other") "Ordinal")]])]
  decls0 ++ [structDecl] ++ metaDecls ++ bodyDecls

/-- Left-cancellation for string append. -/
theorem string_append_right_inj (a b c : String) : a ++ b = a ++ c ↔ b = c := by
  constructor
  · intro h
    have hd := congrArg String.data h
    simp only [String.data_append] at hd
    exact String.ext (List.append_cancel_left hd)
  · intro h
    rw [h]

/-- Folding the case-literal extraction over per-constant case clauses
yields the quoted constant names in order. -/
theorem caseLiterals_fold (cs : List EnumConstantData) (acc : List String) :
    (cs.map (fun ec => GoStmt.caseClause [.basicLit .string ("\"" ++ ec.name ++ "\"")]
        [.ret [.ident ec.name]])).foldl (fun acc c =>
      match c with
      | .caseClause [.basicLit .string v] _ => acc ++ [v]
      | _ => acc) acc = acc ++ cs.map (fun ec => "\"" ++ ec.name ++ "\"") := by
  induction cs generalizing acc with
  | nil => simp
  | cons c rest ih => simp [ih]

/-- C8.  Enum metadata functions: for every lowered enum with at least
one constant, the emitted declarations contain exactly one free function
`<Enum>Values()` — returning the values-slice variable — and exactly one
free function `<Enum>ValueOf(name string)` whose switch carries one case
clause per enum constant, each returning that constant's package-level
variable, followed by a default branch that panics; the package-level
variable block defining one singleton variable per constant is also
emitted.  The `bodyDecls` hypotheses say that the enum's own method
declarations do not happen to declare free functions of those two
synthesized names. -/
theorem enum_metadata_functions (className : String) (typeParams : List TypeParam)
    (interfaceEmbeds : List GoExpr) (fields : List EnumFieldModel)
    (enumConstants : List EnumConstantData) (methods : List Definition)
    (bodyDecls : List GoDecl)
    (hne : enumConstants ≠ [])
    (hb1 : bodyDecls.countP (isFreeFuncNamed (className ++ "Values")) = 0)
    (hb2 : bodyDecls.countP (isFreeFuncNamed (className ++ "ValueOf")) = 0) :
    let out := parseDeclsEnum className typeParams interfaceEmbeds fields enumConstants
      methods bodyDecls
    enumValuesFn className ∈ out ∧
    enumValueOfFn className enumConstants ∈ out ∧
    out.countP (isFreeFuncNamed (className ++ "Values")) = 1 ∧
    out.countP (isFreeFuncNamed (className ++ "ValueOf")) = 1 ∧
    GoDecl.genDecl "var" (enumConstants.map (fun ec =>
      GoSpec.valueSpec [ec.name] none
        [buildEnumConstantInitializer className methods ec
          (.ident ("_" ++ lowerFirst className ++ "_ordinal_" ++ ec.name))])) ∈ out ∧
    caseLiterals (enumValueOfFn className enumConstants) =
      enumConstants.map (fun ec => "\"" ++ ec.name ++ "\"") := by
  intro out
  have hne2 : enumConstants.isEmpty = false := by
    cases enumConstants with
    | nil => exact absurd rfl hne
    | cons a l => rfl
  have hvv : ¬(className ++ "ValueOf" = className ++ "Values") := by
    intro h
    exact absurd ((string_append_right_inj className "ValueOf" "Values").mp h) (by decide)
  have hvv2 : ¬(className ++ "Values" = className ++ "ValueOf") := by
    intro h
    exact hvv h.symm
  have hbeq1 : (className ++ "ValueOf" == className ++ "Values") = false :=
    beq_eq_false_iff_ne.mpr hvv
  have hbeq2 : (className ++ "Values" == className ++ "ValueOf") = false :=
    beq_eq_false_iff_ne.mpr hvv2
  have hout : out =
      (if ((fields.filter (fun f => f.isStatic)).map
          (fun f => GoSpec.valueSpec [f.name] (some (.ident f.ty)) [])).isEmpty then []
       else [GoDecl.genDecl "var" ((fields.filter (fun f => f.isStatic)).map
          (fun f => GoSpec.valueSpec [f.name] (some (.ident f.ty)) []))]) ++
      [GenStructWithTypeParams className
        ([GoField.mk ["Name"] (.ident "string"), GoField.mk ["Ordinal"] (.ident "int")] ++
          interfaceEmbeds.map (fun e => GoField.mk [] e) ++
          (fields.filter (fun f => !f.isStatic)).map
            (fun f => GoField.mk [f.name] (.ident f.ty))) typeParams] ++
      ([.genDecl "const" (enumConstants.enum.map (fun p =>
          GoSpec.valueSpec ["_" ++ lowerFirst className ++ "_ordinal_" ++ p.2.name] none
            (if p.1 = 0 then [.ident "iota"] else []))),
        .genDecl "var" (enumConstants.map (fun ec =>
          GoSpec.valueSpec [ec.name] none
            [buildEnumConstantInitializer className methods ec
              (.ident ("_" ++ lowerFirst className ++ "_ordinal_" ++ ec.name))])),
        .genDecl "var" [GoSpec.valueSpec ["_" ++ lowerFirst className ++ "Values"] none
          [.compositeLit (some (.arrayType (.star (.ident className))))
            (enumConstants.map (fun ec => GoExpr.ident ec.name))]],
        enumValuesFn className,
        enumValueOfFn className enumConstants,
        .funcDecl (HandleExportStatus true "name")
          (some [GoField.mk [ShortName className]
            (.star (instantiateGenericType className
              (typeParamExprs (TypeParamNames typeParams))))]) none none
          (some [GoField.mk [] (.ident "string")])
          (some [.ret [.selector (.ident (ShortName className)) "Name"]]),
        .funcDecl (HandleExportStatus true "ordinal")
          (some [GoField.mk [ShortName className]
            (.star (instantiateGenericType className
              (typeParamExprs (TypeParamNames typeParams))))]) none none
          (some [GoField.mk [] (.ident "int")])
          (some [.ret [.selector (.ident (ShortName className)) "Ordinal"]]),
        .funcDecl (HandleExportStatus true "compareTo")
          (some [GoField.mk [ShortName className]
            (.star (instantiateGenericType className
              (typeParamExprs (TypeParamNames typeParams))))]) none
          (some [GoField.mk ["other"]
            (.star (instantiateGenericType className
              (typeParamExprs (TypeParamNames typeParams))))])
          (some [GoField.mk [] (.ident "int")])
          (some [.ret [.binary (.selector (.ident (ShortName className)) "Ordinal") "-"
            (.selector (.ident "other") "Ordinal")]])] : List GoDecl) ++
      bodyDecls := by
    show parseDeclsEnum className typeParams interfaceEmbeds fields enumConstants
      methods bodyDecls = _
    simp only [parseDeclsEnum, hne2]
    simp
  refine ⟨?_, ?_, ?_, ?_, ?_, ?_⟩
  · rw [hout]
    simp
  · rw [hout]
    simp
  · rw [hout]
    rw [List.countP_append, List.countP_append, List.countP_append]
    rw [hb1]
    have hc0 : (if ((fields.filter (fun f => f.isStatic)).map
        (fun f => GoSpec.valueSpec [f.name] (some (.ident f.ty)) [])).isEmpty then ([] : List GoDecl)
       else [GoDecl.genDecl "var" ((fields.filter (fun f => f.isStatic)).map
          (fun f => GoSpec.valueSpec [f.name] (some (.ident f.ty)) []))]).countP
        (isFreeFuncNamed (className ++ "Values")) = 0 := by
      by_cases hh : ((fields.filter (fun f => f.isStatic)).map
          (fun f => GoSpec.valueSpec [f.name] (some (.ident f.ty)) [])).isEmpty
      · simp [hh]
      · simp [hh, List.countP, List.countP.go, isFreeFuncNamed]
    rw [hc0]
    simp [List.countP, List.countP.go, isFreeFuncNamed, GenStructWithTypeParams,
      enumValuesFn, enumValueOfFn, hvv2, hbeq1]
  · rw [hout]
    rw [List.countP_append, List.countP_append, List.countP_append]
    rw [hb2]
    have hc0 : (if ((fields.filter (fun f => f.isStatic)).map
        (fun f => GoSpec.valueSpec [f.name] (some (.ident f.ty)) [])).isEmpty then ([] : List GoDecl)
       else [GoDecl.genDecl "var" ((fields.filter (fun f => f.isStatic)).map
          (fun f => GoSpec.valueSpec [f.name] (some (.ident f.ty)) []))]).countP
        (isFreeFuncNamed (className ++ "ValueOf")) = 0 := by
      by_cases hh : ((fields.filter (fun f => f.isStatic)).map
          (fun f => GoSpec.valueSpec [f.name] (some (.ident f.ty)) [])).isEmpty
      · simp [hh]
      · simp [hh, List.countP, List.countP.go, isFreeFuncNamed]
    rw [hc0]
    simp [List.countP, List.countP.go, isFreeFuncNamed, GenStructWithTypeParams,
      enumValuesFn, enumValueOfFn, hvv, hbeq2]
  · rw [hout]
    simp
  · simp only [enumValueOfFn, caseLiterals]
    rw [List.foldl_append]
    rw [caseLiterals_fold]
    simp

/-- The constants of a concrete enum `Op`, for the C8 witness. -/
def opEnumConstants : List EnumConstantData :=
  [EnumConstantData.mk "PLUS" [], EnumConstantData.mk "MINUS" []]

/-- C8 witness: `enum_metadata_functions` applied to a concrete
two-constant enum, discharging its hypotheses there. -/
theorem enum_metadata_functions_witness :
    enumValuesFn "Op" ∈ parseDeclsEnum "Op" [] [] [] opEnumConstants [] [] ∧
    (parseDeclsEnum "Op" [] [] [] opEnumConstants [] []).countP
      (isFreeFuncNamed ("Op" ++ "Values")) = 1 ∧
    caseLiterals (enumValueOfFn "Op" opEnumConstants) = ["\"PLUS\"", "\"MINUS\""] := by
  have h := enum_metadata_functions "Op" [] [] [] opEnumConstants [] []
    (by simp [opEnumConstants]) rfl rfl
  refine ⟨h.1, h.2.2.1, ?_⟩
  rw [h.2.2.2.2.2]
  decide

/-! ## Object creation: diamond and raw (ParseExpr object_creation branch, claim C5) -/

/-- The `type` child of an `object_creation_expression` as the branch
reads it: either a `generic_type` node — with its source text, the text
of its first named child (the class name) and the result of
`astutil.ExtractTypeArguments` — or any other node with its source
text. -/
inductive ObjectTypeNode where
  | genericType (content : String) (firstChildContent : String) (extractedArgs : List String)
  | plain (content : String)

/-- The class name the branch extracts. -/
def objectCreationClassName : ObjectTypeNode → String
  | .genericType _ firstChild _ => firstChild
  | .plain content => content

/-- The explicit type arguments the branch extracts. -/
def objectCreationTypeArgs : ObjectTypeNode → List String
  | .genericType _ _ args => args
  | .plain _ => []

/-- The diamond test of the branch: a `generic_type` node whose extracted
type-argument list is empty and whose source text after the class name,
once trimmed, starts with `<>`. -/
def objectCreationIsDiamond : ObjectTypeNode → Bool
  | .genericType content firstChild extractedArgs =>
    extractedArgs.isEmpty &&
      strStartsWith (strTrim (String.mk (content.data.drop firstChild.length))) "<>"
  | .plain _ => false

/-- The constructor-scope view used by `findMatchingConstructor`. -/
structure ConstructorScope where
  methods : List Definition
  typeParameterNames : List String

/-- Translation of `findMatchingConstructor`: first constructor with the
right name and arity whose parameter types match the argument types,
where an empty argument type or a type-parameter position matches
anything. -/
def findMatchingConstructor (scope : Option ConstructorScope) (className : String)
    (argumentTypes : List String) : Option Definition :=
  match scope with
  | none => none
  | some sc =>
    sc.methods.find? (fun d =>
      d.isConstructor && d.originalName == className &&
      d.parameters.length == argumentTypes.length &&
      (d.parameters.zip argumentTypes).all (fun p =>
        p.2 == "" || p.1.originalType == p.2 ||
          (sc.typeParameterNames ++ TypeParamNames d.typeParameters).contains p.1.originalType))

/-- Translation of the local `addTypeArgs` closure: instantiate the
constructor expression with the lowered type-argument strings. -/
def addObjectTypeArgs (scopeTypeParams : List String) (funExpr : GoExpr)
    (args : List String) : GoExpr :=
  if args.isEmpty then funExpr
  else applyTypeArguments funExpr
    (args.map (fun ta => javaTypeStringToGoTypeExpr ta scopeTypeParams))

/-- The effective type arguments of the constructor call: the explicit
ones; otherwise, for a diamond with a known expected type, the arguments
extracted from the expected type; otherwise, for a non-diamond creation
of a nested class of the generic current class, the parent's type
parameters. -/
def effectiveObjectTypeArgs (typeNode : ObjectTypeNode) (expectedType : String)
    (currentClassTPNames : List String) (subclassNames : List String) : List String :=
  let typeArgs := objectCreationTypeArgs typeNode
  let isDiamond := objectCreationIsDiamond typeNode
  if typeArgs.isEmpty then
    let afterDiamond :=
      if isDiamond ∧ expectedType ≠ "" then extractTypeArgsFromString expectedType
      else typeArgs
    if afterDiamond.isEmpty ∧ isDiamond = false ∧ currentClassTPNames.isEmpty = false ∧
        subclassNames.contains (objectCreationClassName typeNode) then
      currentClassTPNames
    else afterDiamond
  else typeArgs

/-- The resolved constructor name: the matched constructor's resolved
name, or the `Construct<Name>` fallback for an unresolved constructor. -/
def objectCtorName (ctorScope : Option ConstructorScope) (className : String)
    (argumentTypes : List String) : String :=
  match findMatchingConstructor ctorScope className argumentTypes with
  | some c => c.name
  | none => "Construct" ++ className

/-- Translation of the `object_creation_expression` branch of
`ParseExpr`: resolve the constructor (falling back to
`Construct<Name>`), instantiate it with the effective type arguments and
apply it to the parsed arguments. -/
def parseObjectCreation (typeNode : ObjectTypeNode) (arguments : List GoExpr)
    (argumentTypes : List String) (ctorScope : Option ConstructorScope)
    (expectedType : String) (scopeTypeParams currentClassTPNames subclassNames : List String) :
    GoExpr :=
  let className := objectCreationClassName typeNode
  let effective := effectiveObjectTypeArgs typeNode expectedType currentClassTPNames subclassNames
  .call (addObjectTypeArgs scopeTypeParams
    (.ident (objectCtorName ctorScope className argumentTypes)) effective) arguments

/-- C5.  Diamond classification and inference: an object-creation type
node is classified diamond exactly when it is a `generic_type` node with
an empty extracted type-argument list whose source text after the class
name starts (after whitespace) with `<>`; a bare identifier is raw; for a
diamond creation whose expected LHS Java type string carries the type
arguments `A1,…,An` (n ≥ 1), the emitted constructor call is
instantiated with the lowered form of each `Ai` in order; a raw creation
takes no type arguments from the expected type (its lowering does not
depend on the expected type at all). -/
theorem diamond_and_raw_inference (node : ObjectTypeNode) (content firstChild : String)
    (arguments : List GoExpr) (argumentTypes : List String)
    (ctorScope : Option ConstructorScope) (expectedType : String)
    (scopeTypeParams currentClassTPNames subclassNames : List String) (As : List String) :
    (objectCreationIsDiamond node = true ↔
      ∃ c f, node = .genericType c f [] ∧
        strStartsWith (strTrim (String.mk (c.data.drop f.length))) "<>" = true) ∧
    objectCreationIsDiamond (.plain content) = false ∧
    (objectCreationIsDiamond (.genericType content firstChild []) = true →
      expectedType ≠ "" → extractTypeArgsFromString expectedType = As → As ≠ [] →
      parseObjectCreation (.genericType content firstChild []) arguments argumentTypes
          ctorScope expectedType scopeTypeParams currentClassTPNames subclassNames =
        .call (applyTypeArguments
          (.ident (objectCtorName ctorScope firstChild argumentTypes))
          (As.map (fun ta => javaTypeStringToGoTypeExpr ta scopeTypeParams))) arguments) ∧
    (parseObjectCreation (.plain content) arguments argumentTypes ctorScope expectedType
        scopeTypeParams currentClassTPNames subclassNames =
      parseObjectCreation (.plain content) arguments argumentTypes ctorScope ""
        scopeTypeParams currentClassTPNames subclassNames) := by
  refine ⟨?_, rfl, ?_, ?_⟩
  · constructor
    · intro h
      match node with
      | .plain c => simp [objectCreationIsDiamond] at h
      | .genericType c f args =>
        simp only [objectCreationIsDiamond, Bool.and_eq_true, List.isEmpty_iff] at h
        exact ⟨c, f, by rw [h.1], h.2⟩
    · intro ⟨c, f, hn, hs⟩
      subst hn
      simp [objectCreationIsDiamond, hs]
  · intro hd hexp hAs hAne
    have hAe : As.isEmpty = false := by
      cases As with
      | nil => exact absurd rfl hAne
      | cons a l => rfl
    have hsw : strStartsWith (strTrim (String.mk (content.data.drop firstChild.length))) "<>" =
        true := by
      simpa [objectCreationIsDiamond] using hd
    have heff : effectiveObjectTypeArgs (.genericType content firstChild []) expectedType
        currentClassTPNames subclassNames = As := by
      simp only [effectiveObjectTypeArgs, objectCreationTypeArgs, objectCreationIsDiamond,
        objectCreationClassName, hsw, List.isEmpty_nil]
      simp [hexp, hAs]
    simp only [parseObjectCreation, objectCreationClassName]
    rw [heff]
    simp [addObjectTypeArgs, hAe]
  · simp [parseObjectCreation, effectiveObjectTypeArgs, objectCreationTypeArgs,
      objectCreationIsDiamond]

/-- C5 witness: `diamond_and_raw_inference` applied to the spec's
`new DiamondOperator<>()` with expected type `DiamondOperator<String>`,
discharging its hypotheses at that concrete instance. -/
theorem diamond_and_raw_inference_witness :
    objectCreationIsDiamond
      (.genericType "DiamondOperator<>" "DiamondOperator" []) = true ∧
    extractTypeArgsFromString "DiamondOperator<String>" = ["String"] ∧
    parseObjectCreation (.genericType "DiamondOperator<>" "DiamondOperator" []) [] [] none
        "DiamondOperator<String>" [] [] [] =
      .call (applyTypeArguments (.ident (objectCtorName none "DiamondOperator" []))
        (["String"].map (fun ta => javaTypeStringToGoTypeExpr ta []))) [] := by
  have h := diamond_and_raw_inference (.plain "DiamondOperator") "DiamondOperator<>"
    "DiamondOperator" [] [] none "DiamondOperator<String>" [] [] [] ["String"]
  exact ⟨by decide, by decide,
    h.2.2.1 (by decide) (by decide) (by decide) (by decide)⟩

/-! ## Method type-argument inference and the helper call rewrite (claim C4) -/

/-- The parts of `Ctx` the inference reads: the current class scope and
the method being lowered. -/
structure InferCtx (n : Nat) where
  currentClass : Option (Fin n)
  localScope : Option Definition

/-- Translation of `inScopeTypeParameters`: class-level then method-level
type-parameter names. -/
def inScopeTypeParameters {n : Nat} (reg : Fin n → ClassScopeData) (ctx : InferCtx n) :
    List String :=
  (match ctx.currentClass with
   | none => []
   | some cc => TypeParamNames (reg cc).typeParameters) ++
  (match ctx.localScope with
   | none => []
   | some ls => TypeParamNames ls.typeParameters)

/-- Translation of `inferIdentifierJavaType`: parameters of the local
scope, then its locals, then the field hierarchy of the current class;
an entry with an empty original type is skipped. -/
def inferIdentifierJavaType {n : Nat} (reg : Fin n → ClassScopeData)
    (resolveName : String → Option (Fin n)) (ctx : InferCtx n) (name : String) :
    Option String :=
  let fromParam :=
    match ctx.localScope with
    | none => none
    | some ls =>
      match ls.parameterByName name with
      | some p => if p.originalType ≠ "" then some p.originalType else none
      | none => none
  match fromParam with
  | some t => some t
  | none =>
    let fromLocal :=
      match ctx.localScope with
      | none => none
      | some ls =>
        match ls.findVariable name with
        | some p => if p.originalType ≠ "" then some p.originalType else none
        | none => none
    match fromLocal with
    | some t => some t
    | none =>
      match ctx.currentClass with
      | none => none
      | some cc =>
        match findFieldInHierarchyDef reg resolveName cc name with
        | some f => if f.originalType ≠ "" then some f.originalType else none
        | none => none

/-- `strings.Join(names, ", ")`. -/
def joinComma : List String → String
  | [] => ""
  | [x] => x
  | x :: rest => x ++ ", " ++ joinComma rest

/-- An argument node of a method invocation, as `inferExprJavaType`
inspects it: an identifier, `this`, an object creation (with the text of
its `type` child, when present), or any other expression. -/
inductive ArgNode where
  | identifier (name : String)
  | thisNode
  | objectCreation (typeContent : Option String)
  | other

/-- Translation of `inferExprJavaType`. -/
def inferExprJavaType {n : Nat} (reg : Fin n → ClassScopeData)
    (resolveName : String → Option (Fin n)) (ctx : InferCtx n) : ArgNode → Option String
  | .identifier nm => inferIdentifierJavaType reg resolveName ctx nm
  | .thisNode =>
    match ctx.currentClass with
    | none => none
    | some cc =>
      let base := (reg cc).originalName
      if (reg cc).typeParameters.isEmpty then some base
      else some (base ++ "<" ++ joinComma (TypeParamNames (reg cc).typeParameters) ++ ">")
  | .objectCreation t => t
  | .other => none

/-- A `method_invocation` node as the rewrite reads it: the contents of
the children of its `type_arguments` field (absent when no explicit
type arguments are written), whether its `arguments` field is present,
and its argument nodes. -/
structure InvocationNode where
  typeArguments : Option (List String)
  hasArgumentsNode : Bool
  args : List ArgNode

/-- Translation of `explicitTypeArgumentExprs`. -/
def explicitTypeArgumentExprs (inv : InvocationNode) (typeParams : List String) : List GoExpr :=
  match inv.typeArguments with
  | none => []
  | some l => l.map (fun a => javaTypeStringToGoTypeExpr a typeParams)

/-- Assignment to a Go map key, on the association-list model: remove any
previous binding, add the new one. -/
def mapInsert (m : List (String × GoExpr)) (k : String) (v : GoExpr) :
    List (String × GoExpr) :=
  (m.filter (fun p => p.1 != k)) ++ [(k, v)]

/-- Go map lookup, on the association-list model. -/
def mapLookup (m : List (String × GoExpr)) (k : String) : Option GoExpr :=
  (m.find? (fun p => p.1 == k)).map (fun p => p.2)

/-- The `resolved` map construction of `inferMethodTypeArguments`: for
each parameter position whose declared type is exactly a method type
parameter, and whose argument's Java type can be inferred, bind that
type parameter to the lowered inferred type (later positions
overwrite). -/
def buildResolved {n : Nat} (reg : Fin n → ClassScopeData)
    (resolveName : String → Option (Fin n)) (ctx : InferCtx n) (d : Definition)
    (argNodes : List ArgNode) : List (String × GoExpr) :=
  d.parameters.enum.foldl (fun m p =>
    d.typeParameters.foldl (fun m2 tp =>
      if p.2.originalType = tp.name ∧ p.1 < argNodes.length then
        match argNodes[p.1]? with
        | some an =>
          match inferExprJavaType reg resolveName ctx an with
          | some jt =>
            mapInsert m2 tp.name
              (javaTypeStringToGoTypeExpr jt (inScopeTypeParameters reg ctx))
          | none => m2
        | none => m2
      else m2) m) []

/-- Translation of `inferMethodTypeArguments`: the explicit type-argument
list when its length equals the method's type-parameter count; otherwise
one entry per method type parameter, the resolved binding or `any`. -/
def inferMethodTypeArguments {n : Nat} (reg : Fin n → ClassScopeData)
    (resolveName : String → Option (Fin n)) (ctx : InferCtx n) (d : Definition)
    (inv : InvocationNode) : List GoExpr :=
  if d.typeParameters.isEmpty then []
  else
    let explicit := explicitTypeArgumentExprs inv (inScopeTypeParameters reg ctx)
    if explicit.length = d.typeParameters.length ∧ explicit.length > 0 then explicit
    else if inv.hasArgumentsNode = false then []
    else
      let resolved := buildResolved reg resolveName ctx d inv.args
      d.typeParameters.map (fun tp =>
        match mapLookup resolved tp.name with
        | some e => e
        | none => .ident "any")

/-- Translation of `mapClassTypeArgsToAncestor` (loop body, with the
`seen` set and a fuel bound on the length-bounded iteration): walk the
superclass chain from `cur`, mapping the current type arguments through
each `extends` clause, until the ancestor is reached. -/
def mapClassTypeArgsToAncestorAux {n : Nat} (reg : Fin n → ClassScopeData)
    (resolveName : String → Option (Fin n)) (ctx : InferCtx n) :
    Nat → Fin n → List GoExpr → Fin n → List (Fin n) → Option (List GoExpr)
  | 0, _, _, _, _ => none
  | fuel + 1, cur, curArgs, ancestor, seen =>
    if cur = ancestor then some curArgs
    else if cur ∈ seen then none
    else
      let superType := strTrim (reg cur).superclass
      if superType = "" then none
      else
        match resolveName (parseJavaTypeString superType).1 with
        | none => none
        | some parentScope =>
          let paramNames := TypeParamNames (reg cur).typeParameters
          let paramMap := paramNames.enum.foldl (fun m q =>
            match curArgs[q.1]? with
            | some a => mapInsert m q.2 a
            | none => m) []
          let scopeTypeParams := inScopeTypeParameters reg ctx ++ paramNames
          let parentArgs := (parseJavaTypeString superType).2.map (fun a =>
            let a1 := strTrim (stripJavaQualifier a)
            match mapLookup paramMap a1 with
            | some e => e
            | none => javaTypeStringToGoTypeExpr a1 scopeTypeParams)
          mapClassTypeArgsToAncestorAux reg resolveName ctx fuel parentScope parentArgs
            ancestor (seen ++ [cur])

/-- Translation of `mapClassTypeArgsToAncestor`. -/
def mapClassTypeArgsToAncestor {n : Nat} (reg : Fin n → ClassScopeData)
    (resolveName : String → Option (Fin n)) (ctx : InferCtx n) (child : Fin n)
    (childTypeArgs : List GoExpr) (ancestor : Fin n) : Option (List GoExpr) :=
  mapClassTypeArgsToAncestorAux reg resolveName ctx (n + 1) child childTypeArgs ancestor []

/-- Translation of `invocationTargetInfo`. -/
structure InvocationTargetInfo (n : Nat) where
  classScope : Fin n
  classTypeArgs : List GoExpr

/-- Translation of
`maybeRewriteInstanceGenericMethodInvocationWithTarget`: when the
resolved target method requires a helper, rewrite the invocation to a
helper-constructor call followed by the helper method call. -/
def maybeRewriteInstanceGenericMethodInvocationWithTarget {n : Nat}
    (reg : Fin n → ClassScopeData) (resolveName : String → Option (Fin n))
    (ctx : InferCtx n) (target : Option (InvocationTargetInfo n)) (objectExpr : GoExpr)
    (methodName : String) (args : List GoExpr) (inv : InvocationNode) : Option GoExpr :=
  match target with
  | none => none
  | some t =>
    match findInstanceMethodInHierarchyDef reg resolveName t.classScope methodName
        args.length with
    | none => none
    | some (d, owner) =>
      if d.requiresHelper = false then none
      else
        let receiverExpr :=
          if owner = t.classScope then objectExpr
          else .selector objectExpr (reg owner).name
        let classTypeArgs :=
          if owner = t.classScope then t.classTypeArgs
          else
            match mapClassTypeArgsToAncestor reg resolveName ctx t.classScope
                t.classTypeArgs owner with
            | some mapped => mapped
            | none => t.classTypeArgs
        let methodTypeArgs := inferMethodTypeArguments reg resolveName ctx d inv
        let helperTypeArgs := classTypeArgs ++ methodTypeArgs
        some (.call
          (.selector
            (.call (applyTypeArguments (.ident ("New" ++ d.helperName)) helperTypeArgs)
              [receiverExpr])
            d.name)
          args)

/-- Go map assignment/lookup interaction on the association-list model. -/
theorem mapLookup_mapInsert (m : List (String × GoExpr)) (kk k : String) (v : GoExpr) :
    mapLookup (mapInsert m kk v) k = if k = kk then some v else mapLookup m k := by
  induction m with
  | nil =>
    by_cases h : k = kk
    · subst h
      simp [mapLookup, mapInsert, List.find?]
    · have hb : (kk == k) = false := beq_eq_false_iff_ne.mpr (fun hc => h hc.symm)
      simp [mapLookup, mapInsert, List.find?, hb, h]
  | cons p m ih =>
    by_cases h1 : p.1 = kk
    · have hb1 : (p.1 != kk) = false := by simp [bne, h1]
      have heq : mapInsert (p :: m) kk v = mapInsert m kk v := by
        simp [mapInsert, List.filter, hb1]
      rw [heq, ih]
      by_cases h : k = kk
      · simp [h]
      · have hb2 : (p.1 == k) = false := by
          simp only [beq_eq_false_iff_ne]
          intro hc
          exact h (by rw [← hc, h1])
        simp [h, mapLookup, List.find?, hb2]
    · have hb1 : (p.1 != kk) = true := by simp [bne, h1]
      by_cases h2 : p.1 = k
      · have hb2 : (p.1 == k) = true := beq_iff_eq.mpr h2
        have hk : ¬ k = kk := by
          intro hc
          exact h1 (by rw [h2, hc])
        simp [mapLookup, mapInsert, List.filter, hb1, List.find?, hb2, hk]
      · have hb2 : (p.1 == k) = false := beq_eq_false_iff_ne.mpr h2
        have lhs : mapLookup (mapInsert (p :: m) kk v) k = mapLookup (mapInsert m kk v) k := by
          simp [mapLookup, mapInsert, List.filter, hb1, List.find?, hb2]
        rw [lhs, ih]
        by_cases h : k = kk
        · simp [h]
        · simp [h, mapLookup, List.find?, hb2]

/-- A binding `k ↦ e` of the `resolved` map is justified: some argument
position's declared parameter type is exactly `k`, and `e` is the lowered
inferred Java type of the argument at that position. -/
def ResolvedWitness {n : Nat} (reg : Fin n → ClassScopeData)
    (resolveName : String → Option (Fin n)) (ctx : InferCtx n) (d : Definition)
    (argNodes : List ArgNode) (k : String) (e : GoExpr) : Prop :=
  ∃ (idx : Nat) (param : ParamDef) (an : ArgNode) (jt : String),
    d.parameters[idx]? = some param ∧ param.originalType = k ∧
    argNodes[idx]? = some an ∧ inferExprJavaType reg resolveName ctx an = some jt ∧
    e = javaTypeStringToGoTypeExpr jt (inScopeTypeParameters reg ctx)

/-- The inner fold of `buildResolved` (over the method type parameters)
preserves the justification invariant, for a parameter position known to
belong to the method's parameter list. -/
theorem buildResolved_inner_invariant {n : Nat} (reg : Fin n → ClassScopeData)
    (resolveName : String → Option (Fin n)) (ctx : InferCtx n) (d : Definition)
    (argNodes : List ArgNode) (p : Nat × ParamDef)
    (hp : d.parameters[p.1]? = some p.2) :
    ∀ (T : List TypeParam) (m0 : List (String × GoExpr)),
      (∀ k e, mapLookup m0 k = some e → ResolvedWitness reg resolveName ctx d argNodes k e) →
      (∀ k e, mapLookup (T.foldl (fun m2 tp =>
        if p.2.originalType = tp.name ∧ p.1 < argNodes.length then
          match argNodes[p.1]? with
          | some an =>
            match inferExprJavaType reg resolveName ctx an with
            | some jt =>
              mapInsert m2 tp.name
                (javaTypeStringToGoTypeExpr jt (inScopeTypeParameters reg ctx))
            | none => m2
          | none => m2
        else m2) m0) k = some e →
        ResolvedWitness reg resolveName ctx d argNodes k e) := by
  intro T
  induction T with
  | nil => intro m0 hinv; exact hinv
  | cons tp T ih =>
    intro m0 hinv
    apply ih
    intro k e hk
    dsimp only [] at hk
    by_cases hcond : p.2.originalType = tp.name ∧ p.1 < argNodes.length
    · rw [if_pos hcond] at hk
      match han : argNodes[p.1]? with
      | none =>
        rw [han] at hk
        exact hinv k e hk
      | some an =>
        rw [han] at hk
        dsimp only [] at hk
        match hinf : inferExprJavaType reg resolveName ctx an with
        | none =>
          rw [hinf] at hk
          exact hinv k e hk
        | some jt =>
          rw [hinf] at hk
          rw [mapLookup_mapInsert] at hk
          by_cases hkk : k = tp.name
          · rw [if_pos hkk] at hk
            refine ⟨p.1, p.2, an, jt, hp, ?_, han, hinf, ?_⟩
            · rw [hcond.1, hkk]
            · exact (Option.some.injEq _ _ ▸ hk).symm
          · rw [if_neg hkk] at hk
            exact hinv k e hk
    · rw [if_neg hcond] at hk
      exact hinv k e hk

/-- Soundness of the `resolved` map: every binding is justified by some
matching argument position. -/
theorem buildResolved_sound {n : Nat} (reg : Fin n → ClassScopeData)
    (resolveName : String → Option (Fin n)) (ctx : InferCtx n) (d : Definition)
    (argNodes : List ArgNode) (k : String) (e : GoExpr)
    (h : mapLookup (buildResolved reg resolveName ctx d argNodes) k = some e) :
    ResolvedWitness reg resolveName ctx d argNodes k e := by
  have main : ∀ (L : List (Nat × ParamDef)),
      (∀ p ∈ L, d.parameters[p.1]? = some p.2) →
      ∀ (m0 : List (String × GoExpr)),
      (∀ k e, mapLookup m0 k = some e → ResolvedWitness reg resolveName ctx d argNodes k e) →
      ∀ k e, mapLookup (L.foldl (fun m p =>
        d.typeParameters.foldl (fun m2 tp =>
          if p.2.originalType = tp.name ∧ p.1 < argNodes.length then
            match argNodes[p.1]? with
            | some an =>
              match inferExprJavaType reg resolveName ctx an with
              | some jt =>
                mapInsert m2 tp.name
                  (javaTypeStringToGoTypeExpr jt (inScopeTypeParameters reg ctx))
              | none => m2
            | none => m2
          else m2) m) m0) k = some e →
        ResolvedWitness reg resolveName ctx d argNodes k e := by
    intro L
    induction L with
    | nil => intro _ m0 hinv; exact hinv
    | cons p L ihL =>
      intro hmem m0 hinv
      apply ihL (fun q hq => hmem q (List.mem_cons_of_mem _ hq))
      exact buildResolved_inner_invariant reg resolveName ctx d argNodes p
        (hmem p (List.mem_cons_self _ _)) d.typeParameters m0 hinv
  refine main d.parameters.enum ?_ [] (by intro k e hk; simp [mapLookup] at hk) k e h
  intro p hp
  exact (List.mk_mem_enum_iff_getElem?).mp (by exact hp)

/-- The inner fold of `buildResolved` leaves `k` unbound when no
justifying argument position exists for `k`. -/
theorem buildResolved_inner_none {n : Nat} (reg : Fin n → ClassScopeData)
    (resolveName : String → Option (Fin n)) (ctx : InferCtx n) (_d : Definition)
    (argNodes : List ArgNode) (k : String) (p : Nat × ParamDef)
    (hno : ∀ an, p.2.originalType = k → argNodes[p.1]? = some an →
      inferExprJavaType reg resolveName ctx an = none) :
    ∀ (T : List TypeParam) (m0 : List (String × GoExpr)),
      mapLookup m0 k = none →
      mapLookup (T.foldl (fun m2 tp =>
        if p.2.originalType = tp.name ∧ p.1 < argNodes.length then
          match argNodes[p.1]? with
          | some an =>
            match inferExprJavaType reg resolveName ctx an with
            | some jt =>
              mapInsert m2 tp.name
                (javaTypeStringToGoTypeExpr jt (inScopeTypeParameters reg ctx))
            | none => m2
          | none => m2
        else m2) m0) k = none := by
  intro T
  induction T with
  | nil => intro m0 hinv; exact hinv
  | cons tp T ih =>
    intro m0 hinv
    apply ih
    dsimp only []
    by_cases hcond : p.2.originalType = tp.name ∧ p.1 < argNodes.length
    · rw [if_pos hcond]
      match han : argNodes[p.1]? with
      | none => exact hinv
      | some an =>
        dsimp only []
        match hinf : inferExprJavaType reg resolveName ctx an with
        | none => exact hinv
        | some jt =>
          by_cases hkk : k = tp.name
          · exfalso
            have := hno an (hcond.1.trans hkk.symm) han
            rw [hinf] at this
            exact Option.noConfusion this
          · rw [mapLookup_mapInsert, if_neg hkk]
            exact hinv
    · rw [if_neg hcond]
      exact hinv

/-- Completeness of the `resolved` map: when no argument position
justifies a binding for `k`, the inference falls back to `any` for `k`
(the map holds nothing for `k`). -/
theorem buildResolved_none {n : Nat} (reg : Fin n → ClassScopeData)
    (resolveName : String → Option (Fin n)) (ctx : InferCtx n) (d : Definition)
    (argNodes : List ArgNode) (k : String)
    (hno : ∀ (idx : Nat) (param : ParamDef) (an : ArgNode),
      d.parameters[idx]? = some param → param.originalType = k →
      argNodes[idx]? = some an → inferExprJavaType reg resolveName ctx an = none) :
    mapLookup (buildResolved reg resolveName ctx d argNodes) k = none := by
  have main : ∀ (L : List (Nat × ParamDef)),
      (∀ p ∈ L, d.parameters[p.1]? = some p.2) →
      ∀ (m0 : List (String × GoExpr)), mapLookup m0 k = none →
      mapLookup (L.foldl (fun m p =>
        d.typeParameters.foldl (fun m2 tp =>
          if p.2.originalType = tp.name ∧ p.1 < argNodes.length then
            match argNodes[p.1]? with
            | some an =>
              match inferExprJavaType reg resolveName ctx an with
              | some jt =>
                mapInsert m2 tp.name
                  (javaTypeStringToGoTypeExpr jt (inScopeTypeParameters reg ctx))
              | none => m2
            | none => m2
          else m2) m) m0) k = none := by
    intro L
    induction L with
    | nil => intro _ m0 hinv; exact hinv
    | cons p L ihL =>
      intro hmem m0 hinv
      apply ihL (fun q hq => hmem q (List.mem_cons_of_mem _ hq))
      exact buildResolved_inner_none reg resolveName ctx d argNodes k p
        (fun an hty han => hno p.1 p.2 an (hmem p (List.mem_cons_self _ _)) hty han)
        d.typeParameters m0 hinv
  refine main d.parameters.enum ?_ [] (by simp [mapLookup])
  intro p hp
  exact (List.mk_mem_enum_iff_getElem?).mp (by exact hp)

/-- C4 (amended).  Call-site helper rewrite: for a method invocation
whose resolved target is an instance method with `RequiresHelper = true`,
the lowered expression is
`New<Helper>[classTypeArgs, methodTypeArgs](recv).M(args)` — where the
receiver argument is the object expression itself when the method is
declared on the target's own class, and `o.<Ancestor>` (with the class
type arguments mapped to the ancestor) when the method is resolved on an
ancestor — and each method type argument is determined by the first
applicable rule: the explicit type-argument list when its length equals
the method's type-parameter count; otherwise, per type parameter, the
lowered inferred Java type of an argument whose declared parameter type
is exactly that type parameter; otherwise the literal type `any`. -/
theorem helper_call_rewrite {n : Nat} (reg : Fin n → ClassScopeData)
    (resolveName : String → Option (Fin n)) (ctx : InferCtx n)
    (t : InvocationTargetInfo n) (objectExpr : GoExpr) (methodName : String)
    (args : List GoExpr) (inv : InvocationNode) (d : Definition) (owner : Fin n)
    (hres : findInstanceMethodInHierarchyDef reg resolveName t.classScope methodName
      args.length = some (d, owner))
    (hreq : d.requiresHelper = true)
    (hargsnode : inv.hasArgumentsNode = true) :
    (owner = t.classScope →
      maybeRewriteInstanceGenericMethodInvocationWithTarget reg resolveName ctx (some t)
          objectExpr methodName args inv =
        some (.call (.selector (.call
          (applyTypeArguments (.ident ("New" ++ d.helperName))
            (t.classTypeArgs ++ inferMethodTypeArguments reg resolveName ctx d inv))
          [objectExpr]) d.name) args)) ∧
    (owner ≠ t.classScope →
      maybeRewriteInstanceGenericMethodInvocationWithTarget reg resolveName ctx (some t)
          objectExpr methodName args inv =
        some (.call (.selector (.call
          (applyTypeArguments (.ident ("New" ++ d.helperName))
            ((match mapClassTypeArgsToAncestor reg resolveName ctx t.classScope
                t.classTypeArgs owner with
              | some mapped => mapped
              | none => t.classTypeArgs) ++
              inferMethodTypeArguments reg resolveName ctx d inv))
          [.selector objectExpr (reg owner).name]) d.name) args)) ∧
    (d.typeParameters ≠ [] →
      (explicitTypeArgumentExprs inv (inScopeTypeParameters reg ctx)).length =
        d.typeParameters.length →
      explicitTypeArgumentExprs inv (inScopeTypeParameters reg ctx) ≠ [] →
      inferMethodTypeArguments reg resolveName ctx d inv =
        explicitTypeArgumentExprs inv (inScopeTypeParameters reg ctx)) ∧
    (d.typeParameters ≠ [] →
      (inferMethodTypeArguments reg resolveName ctx d inv).length =
        d.typeParameters.length) ∧
    (∀ (i : Nat) (tp : TypeParam), d.typeParameters[i]? = some tp →
      ¬((explicitTypeArgumentExprs inv (inScopeTypeParameters reg ctx)).length =
          d.typeParameters.length ∧
        0 < (explicitTypeArgumentExprs inv (inScopeTypeParameters reg ctx)).length) →
      (inferMethodTypeArguments reg resolveName ctx d inv)[i]? = some (.ident "any") ∨
      ∃ (jt : String), ResolvedWitness reg resolveName ctx d inv.args tp.name
          (javaTypeStringToGoTypeExpr jt (inScopeTypeParameters reg ctx)) ∧
        (inferMethodTypeArguments reg resolveName ctx d inv)[i]? =
          some (javaTypeStringToGoTypeExpr jt (inScopeTypeParameters reg ctx))) ∧
    (∀ (i : Nat) (tp : TypeParam), d.typeParameters[i]? = some tp →
      ¬((explicitTypeArgumentExprs inv (inScopeTypeParameters reg ctx)).length =
          d.typeParameters.length ∧
        0 < (explicitTypeArgumentExprs inv (inScopeTypeParameters reg ctx)).length) →
      (∀ (idx : Nat) (param : ParamDef) (an : ArgNode),
        d.parameters[idx]? = some param → param.originalType = tp.name →
        inv.args[idx]? = some an →
        inferExprJavaType reg resolveName ctx an = none) →
      (inferMethodTypeArguments reg resolveName ctx d inv)[i]? = some (.ident "any")) := by
  have hTPe : ∀ hne : d.typeParameters ≠ [], d.typeParameters.isEmpty = false := by
    intro hne
    cases h : d.typeParameters with
    | nil => exact absurd h hne
    | cons a l => rfl
  refine ⟨?_, ?_, ?_, ?_, ?_, ?_⟩
  · intro howner
    simp only [maybeRewriteInstanceGenericMethodInvocationWithTarget, hres, hreq]
    simp [howner]
  · intro howner
    simp only [maybeRewriteInstanceGenericMethodInvocationWithTarget, hres, hreq]
    simp [howner]
  · intro hne hlen hexne
    have hgt : 0 < (explicitTypeArgumentExprs inv (inScopeTypeParameters reg ctx)).length := by
      cases h : explicitTypeArgumentExprs inv (inScopeTypeParameters reg ctx) with
      | nil => exact absurd h hexne
      | cons a l => simp
    simp only [inferMethodTypeArguments, hTPe hne]
    rw [if_neg (by simp)]
    rw [if_pos ⟨hlen, hgt⟩]
  · intro hne
    simp only [inferMethodTypeArguments, hTPe hne]
    by_cases hex : (explicitTypeArgumentExprs inv (inScopeTypeParameters reg ctx)).length =
        d.typeParameters.length ∧
        0 < (explicitTypeArgumentExprs inv (inScopeTypeParameters reg ctx)).length
    · simp only [Bool.false_eq_true, if_false]
      rw [if_pos ⟨hex.1, hex.2⟩]
      exact hex.1
    · simp only [Bool.false_eq_true, if_false]
      rw [if_neg (by intro hc; exact hex ⟨hc.1, hc.2⟩)]
      simp [hargsnode]
  · intro i tp hi hnex
    simp only [inferMethodTypeArguments, hTPe (by intro hc; simp [hc] at hi)]
    simp only [Bool.false_eq_true, if_false]
    rw [if_neg (by intro hc; exact hnex ⟨hc.1, hc.2⟩)]
    rw [hargsnode]
    rw [if_neg (by simp)]
    rw [List.getElem?_map, hi]
    simp only [Option.map_some']
    match hr : mapLookup (buildResolved reg resolveName ctx d inv.args) tp.name with
    | none =>
      left
      simp [hr]
    | some e =>
      have hw := buildResolved_sound reg resolveName ctx d inv.args tp.name e hr
      obtain ⟨idx, param, an, jt, h1, h2, h3, h4, h5⟩ := hw
      right
      refine ⟨jt, ⟨idx, param, an, jt, h1, h2, h3, h4, rfl⟩, ?_⟩
      simp [hr, h5]
  · intro i tp hi hnex hno
    simp only [inferMethodTypeArguments, hTPe (by intro hc; simp [hc] at hi)]
    simp only [Bool.false_eq_true, if_false]
    rw [if_neg (by intro hc; exact hnex ⟨hc.1, hc.2⟩)]
    rw [hargsnode]
    rw [if_neg (by simp)]
    rw [List.getElem?_map, hi]
    simp only [Option.map_some']
    rw [buildResolved_none reg resolveName ctx d inv.args tp.name hno]

/-- The instance generic method `<T> T m(T x)` of class `A`, as the
symbol phase records it (`RequiresHelper` set, helper name `AMHelper`). -/
def mHelperDef : Definition :=
  { originalName := "m"
    name := "M"
    originalType := "T"
    ty := "T"
    typeParameters := [TypeParam.mk "T" []]
    isStatic := false
    requiresHelper := true
    helperName := "AMHelper"
    isConstructor := false
    parameters := [ParamDef.mk "x" "x" "T" "T"]
    children := [] }

/-- Registry with `class A { <T> T m(T x) }` and `class B extends A`. -/
def regAB : Fin 2 → ClassScopeData :=
  fun i =>
    if i = (0 : Fin 2) then ClassScopeData.mk "A" "A" "" [mHelperDef] [] []
    else ClassScopeData.mk "B" "B" "A" [] [] []

/-- Name resolution for `regAB`. -/
def resolveAB : String → Option (Fin 2) :=
  fun s => if s = "A" then some 0 else if s = "B" then some 1 else none

/-- The method being lowered at the call site: it has a parameter
`String y`. -/
def callerDef : Definition :=
  { originalName := "caller"
    name := "Caller"
    originalType := "void"
    ty := ""
    typeParameters := []
    isStatic := false
    requiresHelper := false
    helperName := ""
    isConstructor := false
    parameters := [ParamDef.mk "y" "y" "string" "String"]
    children := [] }

/-- Lowering context inside class `B`. -/
def ctxB : InferCtx 2 := InferCtx.mk (some 1) (some callerDef)

/-- The invocation node `o.m(y)`: no explicit type arguments, one
identifier argument. -/
def invY : InvocationNode := InvocationNode.mk none true [.identifier "y"]

/-- The receiver argument passed to the helper constructor of a rewritten
invocation. -/
def helperCtorReceiverArg : Option GoExpr → Option GoExpr
  | some (.call (.selector (.call _ [r]) _) _) => some r
  | _ => none

/-- C4 counterexample.  For `o.m(y)` where `o` has type `B`,
`B extends A`, and `m` is an instance generic method declared on the
ancestor `A`, the rewritten call passes `o.A` — not `o` — to the helper
constructor: the claim's shape `New<Helper>[…](o).M(args)` does not hold
for inherited helper methods. -/
theorem helper_rewrite_inherited_receiver_counterexample :
    helperCtorReceiverArg
      (maybeRewriteInstanceGenericMethodInvocationWithTarget regAB resolveAB ctxB
        (some (InvocationTargetInfo.mk 1 [])) (.ident "o") "m" [.ident "y"] invY) =
      some (.selector (.ident "o") "A") ∧
    some (GoExpr.selector (.ident "o") "A") ≠ some (GoExpr.ident "o") := by
  refine ⟨rfl, ?_⟩
  intro h
  injection h with h2
  exact GoExpr.noConfusion h2

/-- C4 witness: `helper_call_rewrite` applied to the direct (non
inherited) call `o.m(y)` on class `A` itself, discharging its hypotheses
at that concrete instance. -/
theorem helper_call_rewrite_witness :
    findInstanceMethodInHierarchyDef regAB resolveAB 0 "m" 1 = some (mHelperDef, 0) ∧
    mHelperDef.requiresHelper = true ∧
    maybeRewriteInstanceGenericMethodInvocationWithTarget regAB resolveAB ctxB
        (some (InvocationTargetInfo.mk 0 [])) (.ident "o") "m" [.ident "y"] invY =
      some (.call (.selector (.call
        (applyTypeArguments (.ident ("New" ++ mHelperDef.helperName))
          ([] ++ inferMethodTypeArguments regAB resolveAB ctxB mHelperDef invY))
        [.ident "o"]) mHelperDef.name) [.ident "y"]) := by
  have h := helper_call_rewrite regAB resolveAB ctxB (InvocationTargetInfo.mk 0 [])
    (.ident "o") "m" [.ident "y"] invY mHelperDef 0 rfl rfl rfl
  exact ⟨rfl, rfl, h.1 rfl⟩
